import Mathlib

/-!
Incident reporting client: state synchronisation engine.

A shallow embedding of the client-side engine of the incident reporting
dashboard:

* `static/js/responder.js`: `loadIncidents` (change detection and snapshot
  replacement), `updateStats`, `renderIncidents` (filter and sort projection);
* `static/js/incident.js`: `IncidentPage.renderVerification`, with the
  arithmetic of binary64 Numbers (round to nearest, ties to even);
* `static/js/index.js`: `checkHighSeverityAlerts`, `showEmergencyAlert`,
  `dismissAlert`.

JavaScript objects live in an explicit object store (`heap`) and are named by
references, so that aliasing between the held array `incidents` and the
mapping `lastIncidentSnapshot` is kept: both hold the same objects.
-/

namespace IncidentEngine

/-! ## JavaScript values and objects -/

/-- A primitive JavaScript value as it comes out of a parsed JSON payload, with
`undefined` for a property that is absent.  Numbers are the integer-valued
ones; object- and array-valued fields are outside the model. -/
inductive JsVal where
  | undefined : JsVal
  | null : JsVal
  | bool (b : Bool) : JsVal
  | num (n : Int) : JsVal
  | str (s : String) : JsVal
  deriving DecidableEq, Repr

/-- Strict inequality `a !== b` on primitive values: two primitives are
strictly equal exactly when they are the same value of the same type. -/
def strictNe (a b : JsVal) : Bool := decide (a ≠ b)

/-- The property key a value turns into when it is used in `obj[value]`. -/
def toPropertyKey : JsVal → String
  | .undefined => "undefined"
  | .null => "null"
  | .bool true => "true"
  | .bool false => "false"
  | .num n => toString n
  | .str s => s

/-- Own-property read on a property list: the value stored under `k`, if any. -/
def getProp {α : Type} : List (String × α) → String → Option α
  | [], _ => none
  | (k', v) :: rest, k => if k' = k then some v else getProp rest k

/-- Own-property write `obj[k] = v`: overwrite the property when it exists,
create it otherwise. -/
def setProp {α : Type} : List (String × α) → String → α → List (String × α)
  | [], k, v => [(k, v)]
  | (k', v') :: rest, k, v =>
    if k' = k then (k, v) :: rest else (k', v') :: setProp rest k v

/-- A plain JavaScript object: its own properties. -/
abbrev JsObject := List (String × JsVal)

/-- Property read `o.k`: `undefined` when the property is absent. -/
def JsObject.get (o : JsObject) (k : String) : JsVal := (getProp o k).getD JsVal.undefined

/-- Property write `o.k = v`. -/
def JsObject.set (o : JsObject) (k : String) (v : JsVal) : JsObject := setProp o k v

/-- A reference to an object of the store. -/
abbrev Ref := Nat

/-! ## responder.js: state -/

/-- The counters written by `updateStats`. -/
structure Counts where
  critical : Nat
  serious : Nat
  medium : Nat
  minor : Nat
  total : Nat
  deriving DecidableEq, Repr

/-- The state of the responder dashboard: the object store, the two module
variables `lastIncidentSnapshot` and `incidents`, the values of the two filter
controls, and the part of the page the engine writes (visibility of the four
views, the cards in the container, the counters). -/
structure Responder where
  heap : List JsObject
  lastIncidentSnapshot : List (String × Ref)
  incidents : List Ref
  severityFilter : String
  statusFilter : String
  loadingHidden : Bool
  errorHidden : Bool
  containerHidden : Bool
  noIncidentsHidden : Bool
  container : List Ref
  stats : Counts
  deriving DecidableEq, Repr

/-- The object a reference points to. -/
def Responder.deref (s : Responder) (r : Ref) : JsObject := s.heap.getD r []

/-- Modelled outcome of `fetch('/responder/incidents')` followed by
`response.json()`: either the call fails (network error, non-ok status, body
that is not JSON), or it yields `data.incidents`, which may be absent. -/
inductive FetchResult where
  | failure : FetchResult
  | success (incidents : Option (List JsObject)) : FetchResult

/-! ## responder.js: loadIncidents -/

/-- The test inside the change-detection loop of `loadIncidents`:
`!prev || prev.status !== inc.status || prev.claimed_by !== inc.claimed_by ||
prev.responder_priority !== inc.responder_priority`, where
`prev = lastIncidentSnapshot[inc.id]`. -/
def differs (s : Responder) (inc : JsObject) : Bool :=
  match getProp s.lastIncidentSnapshot (toPropertyKey (inc.get "id")) with
  | none => true
  | some r =>
    let prev := s.deref r
    strictNe (prev.get "status") (inc.get "status") ||
    strictNe (prev.get "claimed_by") (inc.get "claimed_by") ||
    strictNe (prev.get "responder_priority") (inc.get "responder_priority")

/-- The change-detection loop of `loadIncidents`: `changed` starts `false` and
is set to `true` by every incident that passes the test. -/
def detectChanges (s : Responder) (newIncidents : List JsObject) : Bool :=
  newIncidents.foldl (fun changed inc => if differs s inc then true else changed) false

/-- The references the objects of a freshly parsed collection receive. -/
def freshRefs (s : Responder) (newIncidents : List JsObject) : List Ref :=
  List.range' s.heap.length newIncidents.length

/-- The snapshot built by `lastIncidentSnapshot = {}` followed by
`newIncidents.forEach(inc => { lastIncidentSnapshot[inc.id] = inc; })`. -/
def buildSnapshot (entries : List (JsObject × Ref)) : List (String × Ref) :=
  entries.foldl (fun snap e => setProp snap (toPropertyKey (e.1.get "id")) e.2) []

/-- The store replacement of `loadIncidents`: the snapshot is rebuilt from the
new collection and `incidents = newIncidents`. -/
def replaceStore (s : Responder) (newIncidents : List JsObject) : Responder :=
  { s with
    heap := s.heap ++ newIncidents
    lastIncidentSnapshot := buildSnapshot (newIncidents.zip (freshRefs s newIncidents))
    incidents := freshRefs s newIncidents }

/-- The counter increment `counts[incident.severity]++` of `updateStats`,
guarded by `counts.hasOwnProperty(incident.severity)`: the own properties of
`counts` are `critical`, `serious`, `medium`, `minor` and `total`. -/
def bumpCount (c : Counts) (key : String) : Counts :=
  if key = "critical" then { c with critical := c.critical + 1 }
  else if key = "serious" then { c with serious := c.serious + 1 }
  else if key = "medium" then { c with medium := c.medium + 1 }
  else if key = "minor" then { c with minor := c.minor + 1 }
  else if key = "total" then { c with total := c.total + 1 }
  else c

/-- The counters computed by `updateStats(incidents)`. -/
def updateStats (incidents : List JsObject) : Counts :=
  incidents.foldl (fun c inc => bumpCount c (toPropertyKey (inc.get "severity")))
    { critical := 0, serious := 0, medium := 0, minor := 0, total := incidents.length }

/-! ## responder.js: renderIncidents -/

/-- The table `severityOrder` of the sort callback, read as
`severityOrder[key]`: `none` stands for `undefined`. -/
def severityOrder (key : String) : Option Int :=
  if key = "critical" then some 0
  else if key = "serious" then some 1
  else if key = "medium" then some 2
  else if key = "minor" then some 3
  else none

/-- The sort callback `(a, b) => severityOrder[a.severity] -
severityOrder[b.severity]`; `none` stands for `NaN`, the result of a
subtraction with an `undefined` operand. -/
def compareSeverity (a b : JsObject) : Option Int :=
  match severityOrder (toPropertyKey (a.get "severity")),
        severityOrder (toPropertyKey (b.get "severity")) with
  | some x, some y => some (x - y)
  | _, _ => none

/-- Whether the callback result places `a` not after `b`: a result `v` with
`v <= 0`; `Array.prototype.sort` reads a `NaN` result as `+0`. -/
def notAfter {α : Type} (cmp : α → α → Option Int) (a b : α) : Bool :=
  match cmp a b with
  | some v => decide (v ≤ 0)
  | none => true

/-- Insertion of `a` in front of the first element it is not after. -/
def sortedInsert {α : Type} (cmp : α → α → Option Int) (a : α) : List α → List α
  | [] => [a]
  | b :: l => if notAfter cmp a b then a :: b :: l else b :: sortedInsert cmp a l

/-- `Array.prototype.sort(cmp)`, which ECMAScript requires to be stable,
modelled by insertion sort: every element is inserted in front of the elements
that followed it in the array and compare equal to it.  For a consistent
callback every stable sort returns this same sequence. -/
def arraySort {α : Type} (cmp : α → α → Option Int) : List α → List α
  | [] => []
  | a :: l => sortedInsert cmp a (arraySort cmp l)

/-- The test `incident.severity === severityFilterValue` (and the same for
`status`) against the string value of a filter control. -/
def matchesFilter (field : JsVal) (filterValue : String) : Bool :=
  decide (field = JsVal.str filterValue)

/-- The array `filteredIncidents` of `renderIncidents` after the two filter
steps: it starts as `incidents` and is narrowed by each filter that is not
`'all'`. -/
def filteredIncidents (s : Responder) : List Ref :=
  let step1 :=
    if s.severityFilter ≠ "all" then
      s.incidents.filter (fun r => matchesFilter ((s.deref r).get "severity") s.severityFilter)
    else s.incidents
  if s.statusFilter ≠ "all" then
    step1.filter (fun r => matchesFilter ((s.deref r).get "status") s.statusFilter)
  else step1

/-- The sequence handed to `createIncidentCard`, in order: the filtered array
after `filteredIncidents.sort(...)`. -/
def projection (s : Responder) : List Ref :=
  arraySort (fun a b => compareSeverity (s.deref a) (s.deref b)) (filteredIncidents s)

/-- The function `renderIncidents()`.  `Array.prototype.filter` returns a new
array, `Array.prototype.sort` sorts in place: when both filters are `'all'`
the array `filteredIncidents` is the array `incidents` itself, and the sort
reorders it.  The sort only runs when the filtered array is not empty.  Card
markup (`createIncidentCard`) is not modelled: `container` records which
incident each appended card was built from. -/
def renderIncidents (s : Responder) : Responder :=
  let filtered := filteredIncidents s
  if filtered.length = 0 then
    { s with
      container := []
      noIncidentsHidden := false
      containerHidden := true
      loadingHidden := true }
  else
    let sorted := projection s
    { s with
      incidents :=
        if s.severityFilter ≠ "all" ∨ s.statusFilter ≠ "all" then s.incidents else sorted
      container := sorted
      noIncidentsHidden := true
      containerHidden := false
      loadingHidden := true }

/-- The function `showLoading()`. -/
def showLoading (s : Responder) : Responder :=
  { s with
    loadingHidden := false
    errorHidden := true
    containerHidden := true
    noIncidentsHidden := true }

/-- The function `showError(message)`. -/
def showError (s : Responder) : Responder :=
  { s with
    loadingHidden := true
    errorHidden := false
    containerHidden := true
    noIncidentsHidden := true }

/-- The part of `loadIncidents` that runs once the fetch has settled. -/
def loadIncidentsComplete (s : Responder) (res : FetchResult) : Responder :=
  match res with
  | FetchResult.failure => showError s
  | FetchResult.success data =>
    let newIncidents := data.getD []
    let changed := detectChanges s newIncidents
    let s1 := replaceStore s newIncidents
    let s2 := { s1 with stats := updateStats newIncidents }
    let s3 := if changed then renderIncidents s2 else s2
    { s3 with errorHidden := true }

/-- The function `loadIncidents()`, one whole cycle: `showLoading()`, the
fetch, and the handling of its outcome. -/
def loadIncidents (s : Responder) (res : FetchResult) : Responder :=
  loadIncidentsComplete (showLoading s) res

/-- The state when the page script starts: `lastIncidentSnapshot = {}` and
`incidents = []`, both filter controls on `'all'`. -/
def Responder.initial : Responder :=
  { heap := []
    lastIncidentSnapshot := []
    incidents := []
    severityFilter := "all"
    statusFilter := "all"
    loadingHidden := false
    errorHidden := true
    containerHidden := true
    noIncidentsHidden := true
    container := []
    stats := { critical := 0, serious := 0, medium := 0, minor := 0, total := 0 } }

/-- An incident record with the given id, severity and status. -/
def mkIncident (id : Int) (severity status : String) : JsObject :=
  [("id", JsVal.num id), ("severity", JsVal.str severity), ("status", JsVal.str status),
   ("claimed_by", JsVal.null), ("responder_priority", JsVal.null)]

/-! ## incident.js: renderVerification -/

/-- The Number values that `renderVerification` can meet when the counts are
non-negative: `NaN`, `+Infinity`, and the finite numbers, each kept as the
exact rational it denotes.  Negative numbers and the sign of zero do not
arise: the counts are non-negative and the method only adds, divides and
multiplies by 100. -/
inductive Binary64 where
  | nan : Binary64
  | infinity : Binary64
  | finite (value : ℚ) : Binary64
  deriving DecidableEq

/-- Rounding to the nearest integer, a tie going to the even one: the
rounding mode of the arithmetic of Numbers, applied to a scaled value. -/
def roundHalfEven (q : ℚ) : ℤ :=
  if q - (⌊q⌋ : ℚ) < 1 / 2 then ⌊q⌋
  else if 1 / 2 < q - (⌊q⌋ : ℚ) then ⌊q⌋ + 1
  else if ⌊q⌋ % 2 = 0 then ⌊q⌋ else ⌊q⌋ + 1

/-- The exponent of the spacing of the binary64 numbers around a positive
`x`: with a significand of 53 bits the numbers of `[2 ^ e, 2 ^ (e + 1))` are
`2 ^ (e - 52)` apart, and below `2 ^ (-1022)` (the subnormal range) they are
`2 ^ (-1074)` apart. -/
def spacingExponent (x : ℚ) : ℤ := max (Int.log 2 x) (-1022) - 52

/-- The multiple of the spacing nearest to a non-negative `x`, a tie going to
the even significand. -/
def nearestBinary64 (x : ℚ) : ℚ :=
  (roundHalfEven (x / 2 ^ spacingExponent x) : ℚ) * 2 ^ spacingExponent x

/-- The Number that stands for a non-negative exact value `x`: the nearest
binary64 number, and `Infinity` when that reaches `2 ^ 1024`. -/
def roundToBinary64 (x : ℚ) : Binary64 :=
  if (2 : ℚ) ^ (1024 : ℕ) ≤ nearestBinary64 x then Binary64.infinity
  else Binary64.finite (nearestBinary64 x)

/-- The operator `+` on the Numbers of `Binary64`. -/
def Binary64.add : Binary64 → Binary64 → Binary64
  | Binary64.finite a, Binary64.finite b => roundToBinary64 (a + b)
  | Binary64.nan, _ => Binary64.nan
  | _, Binary64.nan => Binary64.nan
  | _, _ => Binary64.infinity

/-- The operator `/` on the Numbers of `Binary64`: a finite number over zero
is `Infinity` (`NaN` for zero over zero), a finite number over `Infinity` is
zero, and `Infinity / Infinity` is `NaN`. -/
def Binary64.div : Binary64 → Binary64 → Binary64
  | Binary64.finite a, Binary64.finite b =>
    if b = 0 then (if a = 0 then Binary64.nan else Binary64.infinity)
    else roundToBinary64 (a / b)
  | Binary64.finite _, Binary64.infinity => Binary64.finite 0
  | Binary64.infinity, Binary64.finite _ => Binary64.infinity
  | _, _ => Binary64.nan

/-- The operator `*` on the Numbers of `Binary64`: zero times `Infinity` is
`NaN`. -/
def Binary64.mul : Binary64 → Binary64 → Binary64
  | Binary64.finite a, Binary64.finite b => roundToBinary64 (a * b)
  | Binary64.finite a, Binary64.infinity => if a = 0 then Binary64.nan else Binary64.infinity
  | Binary64.infinity, Binary64.finite b => if b = 0 then Binary64.nan else Binary64.infinity
  | Binary64.infinity, Binary64.infinity => Binary64.infinity
  | _, _ => Binary64.nan

/-- The comparison `x > 0`, which is false for `NaN`. -/
def Binary64.gtZero : Binary64 → Bool
  | Binary64.finite a => decide (0 < a)
  | Binary64.infinity => true
  | Binary64.nan => false

/-- The Number that a count of the response becomes: `response.json()` reads
the integer as the nearest binary64 number. -/
def toNumber (n : Nat) : Binary64 := roundToBinary64 (n : ℚ)

/-- The argument `counts` of `renderVerification`: the three tallies, as the
non-negative integers of the response. -/
structure VerificationCounts where
  yes : Nat
  no : Nat
  unsure : Nat
  deriving DecidableEq, Repr

/-- What `renderVerification` writes to the page: the three counters and the
width of the bar, in percent. -/
structure VerificationView where
  verifiedYes : Binary64
  verifiedNo : Binary64
  verifiedUnsure : Binary64
  barWidth : Binary64
  deriving DecidableEq

/-- The local `total` of `renderVerification`:
`counts.yes + counts.no + counts.unsure`, added from left to right. -/
def verificationTotal (counts : VerificationCounts) : Binary64 :=
  ((toNumber counts.yes).add (toNumber counts.no)).add (toNumber counts.unsure)

/-- The local `yesPercent` of `renderVerification`:
`total > 0 ? (counts.yes / total) * 100 : 0`. -/
def yesPercent (counts : VerificationCounts) : Binary64 :=
  if (verificationTotal counts).gtZero then
    ((toNumber counts.yes).div (verificationTotal counts)).mul (Binary64.finite 100)
  else Binary64.finite 0

/-- The method `IncidentPage.renderVerification(counts)`. -/
def renderVerification (counts : VerificationCounts) : VerificationView :=
  { verifiedYes := toNumber counts.yes
    verifiedNo := toNumber counts.no
    verifiedUnsure := toNumber counts.unsure
    barWidth := yesPercent counts }

/-! ## index.js: emergency alert -/

/-- The result of `parseFloat`: `NaN`, an infinity, or the decimal that was
read, kept exactly as sign, digits and power of ten
(`digits * 10 ^ exp10`, negated when `neg`). -/
inductive JsNumber where
  | nan : JsNumber
  | infinity (neg : Bool) : JsNumber
  | decimal (neg : Bool) (digits : Nat) (exp10 : Int) : JsNumber
  deriving DecidableEq, Repr

/-- White space that `parseFloat` skips at the start of its argument
(ECMAScript `StrWhiteSpaceChar`). -/
def isStrWhiteSpaceChar (c : Char) : Bool :=
  let n := c.toNat
  n = 0x09 || n = 0x0A || n = 0x0B || n = 0x0C || n = 0x0D || n = 0x20 || n = 0xA0 ||
  n = 0x1680 || (0x2000 ≤ n && n ≤ 0x200A) || n = 0x2028 || n = 0x2029 || n = 0x202F ||
  n = 0x205F || n = 0x3000 || n = 0xFEFF

/-- A decimal digit `0`..`9`. -/
def isDecimalDigit (c : Char) : Bool := 48 ≤ c.toNat && c.toNat ≤ 57

/-- The number a run of decimal digits denotes. -/
def digitsValue (ds : List Char) : Nat :=
  ds.foldl (fun n c => 10 * n + (c.toNat - 48)) 0

/-- The value of an optional `ExponentPart` (`e` or `E`, an optional sign, at
least one digit) at the start of `cs`; `0` when there is none. -/
def readExponent (cs : List Char) : Int :=
  match cs with
  | [] => 0
  | c :: rest =>
    if c = 'e' ∨ c = 'E' then
      let signed : Bool × List Char :=
        match rest with
        | '+' :: r => (false, r)
        | '-' :: r => (true, r)
        | r => (false, r)
      let ds := signed.2.takeWhile isDecimalDigit
      if ds = [] then 0
      else if signed.1 then - (digitsValue ds : Int) else (digitsValue ds : Int)
    else 0

/-- The longest prefix of `cs` that is a `StrUnsignedDecimalLiteral`
(`Infinity`, digits with an optional fraction and exponent, or a fraction
starting with the dot), as a number of the given sign; `NaN` when no prefix is
one. -/
def readUnsignedDecimal (neg : Bool) (cs : List Char) : JsNumber :=
  if "Infinity".toList.isPrefixOf cs then JsNumber.infinity neg
  else
    let intPart := cs.takeWhile isDecimalDigit
    match cs.dropWhile isDecimalDigit with
    | '.' :: rest =>
      let fracPart := rest.takeWhile isDecimalDigit
      if intPart = [] ∧ fracPart = [] then JsNumber.nan
      else
        JsNumber.decimal neg (digitsValue (intPart ++ fracPart))
          (readExponent (rest.dropWhile isDecimalDigit) - (fracPart.length : Int))
    | rest =>
      if intPart = [] then JsNumber.nan
      else JsNumber.decimal neg (digitsValue intPart) (readExponent rest)

/-- The builtin `parseFloat(string)`: leading white space is skipped, then the
longest prefix that is a decimal literal is read; anything after it is
ignored. -/
def parseFloat (s : String) : JsNumber :=
  match s.toList.dropWhile isStrWhiteSpaceChar with
  | '+' :: rest => readUnsignedDecimal false rest
  | '-' :: rest => readUnsignedDecimal true rest
  | rest => readUnsignedDecimal false rest

/-- The comparison `x < 1` on the Number that `parseFloat` returns.  `NaN` is
below nothing, a negative number or zero is below 1, and a positive decimal is
turned into the nearest binary64 value (ties to even) before it is compared:
that value is below 1 exactly when the decimal is below `1 - 2^-54`, the
midpoint between 1 and the greatest binary64 value under it. -/
def JsNumber.ltOne : JsNumber → Bool
  | JsNumber.nan => false
  | JsNumber.infinity neg => neg
  | JsNumber.decimal true _ _ => true
  | JsNumber.decimal false digits exp10 =>
    decide (digits * 10 ^ exp10.toNat * 2 ^ 54 < (2 ^ 54 - 1) * 10 ^ (-exp10).toNat)

/-- The builtin `haystack.includes(needle)` on the characters of two strings. -/
def includesChars (needle : List Char) : List Char → Bool
  | [] => needle.isEmpty
  | c :: cs => needle.isPrefixOf (c :: cs) || includesChars needle cs

/-- The call `haystack.includes(needle)`. -/
def stringIncludes (haystack needle : String) : Bool :=
  includesChars needle.toList haystack.toList

/-- An incident as `checkHighSeverityAlerts` reads it: a `severity` and a
`distance`, the latter a string (the source calls `distance.includes`). -/
structure NearbyIncident where
  severity : JsVal
  distance : String
  deriving DecidableEq, Repr

/-- The part of the citizen page the alert functions write:
`emergencyAlert.style.display`. -/
structure IndexPage where
  emergencyAlertDisplay : String
  deriving DecidableEq, Repr

/-- The filter callback of `checkHighSeverityAlerts`:
`['critical', 'serious'].includes(incident.severity) &&
incident.distance.includes('km') && parseFloat(incident.distance) < 1`. -/
def isHighSeverityNearby (incident : NearbyIncident) : Bool :=
  (decide (incident.severity = JsVal.str "critical") ||
    decide (incident.severity = JsVal.str "serious")) &&
  stringIncludes incident.distance "km" &&
  (parseFloat incident.distance).ltOne

/-- The function `showEmergencyAlert(incidents)`. -/
def showEmergencyAlert (page : IndexPage) (_incidents : List NearbyIncident) : IndexPage :=
  { page with emergencyAlertDisplay := "flex" }

/-- The function `dismissAlert()`. -/
def dismissAlert (page : IndexPage) : IndexPage :=
  { page with emergencyAlertDisplay := "none" }

/-- The function `checkHighSeverityAlerts(incidents)`. -/
def checkHighSeverityAlerts (page : IndexPage) (incidents : List NearbyIncident) : IndexPage :=
  let highSeverity := incidents.filter isHighSeverityNearby
  if highSeverity.length > 0 then showEmergencyAlert page highSeverity else page

/-! ## responder.js: the mutation operations -/

/-- Modelled outcome of a `fetch` whose body the caller parses with
`response.json()` before it tests `response.ok`: either the call fails
(network error, a body that is not JSON, or a non-ok status), or it succeeds
with the parsed body. -/
inductive RemoteResult where
  | failure : RemoteResult
  | success (body : JsObject) : RemoteResult
  deriving DecidableEq, Repr

/-- Modelled outcome of the `fetch` of `sendNote`, which is not inside a `try`:
the call rejects (network error), or it resolves with `res.ok` true or false. -/
inductive NoteResult where
  | networkError : NoteResult
  | status (ok : Bool) : NoteResult
  deriving DecidableEq, Repr

/-- The assignment `incidents[idx].k = v` on the object behind `r`. -/
def Responder.write (s : Responder) (r : Ref) (k : String) (v : JsVal) : Responder :=
  { s with heap := s.heap.set r ((s.deref r).set k v) }

/-- The object `incidents[incidents.findIndex(i => i.id === incidentId)]`: the
first held object whose `id` is strictly equal to `incidentId`; `none` when
`findIndex` returns `-1`. -/
def findIncident (s : Responder) (incidentId : JsVal) : Option Ref :=
  s.incidents.find? (fun r => decide ((s.deref r).get "id" = incidentId))

/-- The function `updateIncidentStatus(incidentId, newStatus)` from the point
where its fetch has settled; `ok` is false for a network error or a non-ok
status, `now` is the string `new Date().toISOString()` returns. -/
def updateIncidentStatus (s : Responder) (incidentId newStatus : JsVal) (now : String)
    (ok : Bool) : Responder :=
  if ok then
    let s1 :=
      match findIncident s incidentId with
      | some r => (s.write r "status" newStatus).write r "updated_at" (JsVal.str now)
      | none => s
    renderIncidents s1
  else s

/-- The function `claimIncident(incidentId)` from the point where its fetch has
settled: on success the record takes `result.claimed_by` from the response
body. -/
def claimIncident (s : Responder) (incidentId : JsVal) (res : RemoteResult) : Responder :=
  match res with
  | RemoteResult.failure => s
  | RemoteResult.success result =>
    let s1 :=
      match findIncident s incidentId with
      | some r => s.write r "claimed_by" (result.get "claimed_by")
      | none => s
    renderIncidents s1

/-- The function `updateIncidentPriority(incidentId, priority)` from the point
where its fetch has settled: on success the record takes the argument
`priority` (the response body is not read). -/
def updateIncidentPriority (s : Responder) (incidentId priority : JsVal) (res : RemoteResult) :
    Responder :=
  match res with
  | RemoteResult.failure => s
  | RemoteResult.success _ =>
    let s1 :=
      match findIncident s incidentId with
      | some r => s.write r "responder_priority" priority
      | none => s
    renderIncidents s1

/-- What `sendNote` leaves behind: the engine state, the JSON body it posted
and the text of the `alert` it showed, if any. -/
structure NoteOutcome where
  state : Responder
  requestBody : JsObject
  alert : Option String
  deriving DecidableEq, Repr

/-- The function `sendNote(incidentId, message)`; `eta` is what `prompt`
returned (a string, or `null` when the dialog was cancelled). -/
def sendNote (s : Responder) (_incidentId : JsVal) (message : String) (eta : JsVal)
    (res : NoteResult) : NoteOutcome :=
  { state := s
    requestBody := [("note", JsVal.str message), ("eta", eta)]
    alert :=
      match res with
      | NoteResult.networkError => none
      | NoteResult.status true => some "Update sent to user"
      | NoteResult.status false => some "Failed to send update" }

/-- A call of one of the four mutation operations together with the answer of
the server. -/
inductive Mutation where
  | claimIncident (incidentId : JsVal) (res : RemoteResult) : Mutation
  | updateIncidentStatus (incidentId newStatus : JsVal) (now : String) (ok : Bool) : Mutation
  | updateIncidentPriority (incidentId priority : JsVal) (res : RemoteResult) : Mutation
  | sendNote (incidentId : JsVal) (message : String) (eta : JsVal) (res : NoteResult) : Mutation
  deriving DecidableEq, Repr

/-- The engine state after a mutation call. -/
def applyMutation (s : Responder) : Mutation → Responder
  | Mutation.claimIncident incidentId res => claimIncident s incidentId res
  | Mutation.updateIncidentStatus incidentId newStatus now ok =>
    updateIncidentStatus s incidentId newStatus now ok
  | Mutation.updateIncidentPriority incidentId priority res =>
    updateIncidentPriority s incidentId priority res
  | Mutation.sendNote incidentId message eta res => (sendNote s incidentId message eta res).state

/-! ## responder.js: the poller -/

/-- The responder dashboard together with the number of `loadIncidents` calls
whose fetch has not settled yet. -/
structure ResponderPoller where
  engine : Responder
  outstanding : Nat
  deriving DecidableEq, Repr

/-- The events of the responder poller: a tick of
`setInterval(loadIncidents, REFRESH_INTERVAL)`, and the settling of one
outstanding fetch. -/
inductive ResponderEvent where
  | tick : ResponderEvent
  | settle (res : FetchResult) : ResponderEvent

/-- One step of the responder poller.  A tick calls `loadIncidents`, which runs
`showLoading()` and issues its fetch; nothing in `loadIncidents` or in the
timer callback looks at calls in flight.  Settling runs the rest of
`loadIncidents`; it can only happen while a call is outstanding. -/
def responderStep (p : ResponderPoller) : ResponderEvent → ResponderPoller
  | ResponderEvent.tick =>
    { engine := showLoading p.engine, outstanding := p.outstanding + 1 }
  | ResponderEvent.settle res =>
    if p.outstanding = 0 then p
    else { engine := loadIncidentsComplete p.engine res, outstanding := p.outstanding - 1 }

/-- The poller after `init()`: `loadIncidents()` has been called once and its
fetch is in flight, the timer is set. -/
def ResponderPoller.initial : ResponderPoller :=
  { engine := showLoading Responder.initial, outstanding := 1 }

/-! ## incident.js: loading and polling -/

/-- The part of `IncidentPage` the loading cycle writes: the field
`isLoading`, the `display` of the three views, and the number of
`loadIncidentData` calls whose fetch has not settled yet. -/
structure IncidentPage where
  isLoading : Bool
  outstanding : Nat
  loadingDisplay : String
  mainContentDisplay : String
  errorStateDisplay : String
  deriving DecidableEq, Repr

/-- How a `loadIncidentData` cycle ends: the fetch rejects, the status is not
ok, the body is not JSON, the body has a falsy `success`, a render method
throws, or everything is rendered. -/
inductive LoadOutcome where
  | networkError : LoadOutcome
  | httpError : LoadOutcome
  | invalidBody : LoadOutcome
  | successFalse : LoadOutcome
  | renderError : LoadOutcome
  | loaded : LoadOutcome
  deriving DecidableEq, Repr

/-- The method `showLoading(show)`; the argument is named `shown` here. -/
def IncidentPage.showLoading (p : IncidentPage) (shown : Bool) : IncidentPage :=
  let p1 := { p with isLoading := shown, loadingDisplay := if shown then "block" else "none" }
  if shown then { p1 with mainContentDisplay := "none", errorStateDisplay := "none" } else p1

/-- The method `showError(message)`. -/
def IncidentPage.showError (p : IncidentPage) : IncidentPage :=
  { p with
    isLoading := false
    loadingDisplay := "none"
    mainContentDisplay := "none"
    errorStateDisplay := "block" }

/-- The start of `loadIncidentData()`: `this.showLoading(true)` and the fetch. -/
def loadIncidentDataBegin (p : IncidentPage) : IncidentPage :=
  { p.showLoading true with outstanding := p.outstanding + 1 }

/-- The rest of `loadIncidentData()` once the fetch has settled: the success
branch shows the main content and clears `isLoading`; every other outcome
reaches the `catch` block, which calls `showError`. -/
def loadIncidentDataComplete (p : IncidentPage) (outcome : LoadOutcome) : IncidentPage :=
  let p1 := { p with outstanding := p.outstanding - 1 }
  match outcome with
  | LoadOutcome.loaded =>
    { p1 with mainContentDisplay := "block", loadingDisplay := "none", isLoading := false }
  | _ => p1.showError

/-- The events of the incident page poller: a tick of the timer set by
`startPolling`, and the settling of the outstanding fetch. -/
inductive PageEvent where
  | tick : PageEvent
  | settle (outcome : LoadOutcome) : PageEvent
  deriving DecidableEq, Repr

/-- One step of the incident page poller.  The timer callback of
`startPolling` calls `loadIncidentData` only `if (!this.isLoading)`.  Settling
can only happen while a call is outstanding. -/
def pageStep (p : IncidentPage) : PageEvent → IncidentPage
  | PageEvent.tick => if !p.isLoading then loadIncidentDataBegin p else p
  | PageEvent.settle outcome =>
    if p.outstanding = 0 then p else loadIncidentDataComplete p outcome

/-- The page after the constructor and `init()`: `isLoading` is true,
`loadIncidentData()` has been called once and its fetch is in flight. -/
def IncidentPage.initial : IncidentPage :=
  loadIncidentDataBegin
    { isLoading := true
      outstanding := 0
      loadingDisplay := ""
      mainContentDisplay := ""
      errorStateDisplay := "" }

/-! ## responder.js: the buttons of the details modal -/

/-- The call made by a button of the details modal.  `showIncidentDetails`
writes the handler as text,
`onclick="updateIncidentStatus('${incident.id}', 'in_progress')"`: the id is
turned into a string by the template and stands between quotes, so the
function receives a string (for an id without quote or backslash
characters, the text of the id itself). -/
def modalUpdateStatus (s : Responder) (incident : JsObject) (newStatus : String)
    (now : String) (ok : Bool) : Responder :=
  updateIncidentStatus s (JsVal.str (toPropertyKey (incident.get "id")))
    (JsVal.str newStatus) now ok

/-! ## incident.js: every caller of loadIncidentData -/

/-- The events that touch the loading cycle of the incident page: a tick of
the timer of `startPolling`, a direct call of `loadIncidentData()` (by
`refreshData()`, or by the reload that `updateIncidentStatus` schedules after
a successful update), and the settling of an outstanding fetch. -/
inductive PageAction where
  | tick : PageAction
  | direct : PageAction
  | settle (outcome : LoadOutcome) : PageAction
  deriving DecidableEq, Repr

/-- One step of the incident page over all callers: only the timer callback
tests `isLoading`; a direct call starts its cycle in every state. -/
def pageAct (p : IncidentPage) : PageAction → IncidentPage
  | PageAction.tick => if !p.isLoading then loadIncidentDataBegin p else p
  | PageAction.direct => loadIncidentDataBegin p
  | PageAction.settle outcome =>
    if p.outstanding = 0 then p else loadIncidentDataComplete p outcome

/-! ## Notions used to state the properties -/

/-- The tracked fields of a record: `status`, `claimed_by`,
`responder_priority`. -/
def trackedFields (o : JsObject) : JsVal × JsVal × JsVal :=
  (o.get "status", o.get "claimed_by", o.get "responder_priority")

/-- The property key of a record's `id`. -/
def idKey (o : JsObject) : String := toPropertyKey (o.get "id")

/-- The severity rank of the specification: critical 0, serious 1, medium 2,
minor 3 (the last also for a value outside the four). -/
def severityRank (severity : JsVal) : Nat :=
  if severity = JsVal.str "critical" then 0
  else if severity = JsVal.str "serious" then 1
  else if severity = JsVal.str "medium" then 2
  else 3

/-- The two filter conditions on the incident behind `r`: each filter is
`'all'` or equal to the incident's field. -/
def passesFilters (s : Responder) (r : Ref) : Bool :=
  (decide (s.severityFilter = "all") ||
    decide ((s.deref r).get "severity" = JsVal.str s.severityFilter)) &&
  (decide (s.statusFilter = "all") ||
    decide ((s.deref r).get "status" = JsVal.str s.statusFilter))

/-- A value that is neither `null` nor `undefined`. -/
def nonNull (v : JsVal) : Prop := v ≠ JsVal.null ∧ v ≠ JsVal.undefined

/-- The states the responder dashboard can be in: the state at page load, and
every state reached from it by the start of a `loadIncidents` cycle, the
settling of its fetch, a change of the filter controls (whose handler is
`renderIncidents`), or a mutation call. -/
inductive Reachable : Responder → Prop where
  | initial : Reachable Responder.initial
  | beginLoad {s : Responder} : Reachable s → Reachable (showLoading s)
  | completeLoad {s : Responder} (res : FetchResult) :
      Reachable s → Reachable (loadIncidentsComplete s res)
  | changeFilters {s : Responder} (severity status : String) :
      Reachable s →
      Reachable (renderIncidents { s with severityFilter := severity, statusFilter := status })
  | mutate {s : Responder} (m : Mutation) : Reachable s → Reachable (applyMutation s m)

/-- The store invariant: every held reference names an object of the store,
every snapshot entry is a held object filed under the key of its own id, and
the id of every held object has a snapshot entry. -/
def Responder.Consistent (s : Responder) : Prop :=
  (∀ r ∈ s.incidents, r < s.heap.length) ∧
  (∀ k r, getProp s.lastIncidentSnapshot k = some r →
    r ∈ s.incidents ∧ idKey (s.deref r) = k) ∧
  (∀ r ∈ s.incidents, (getProp s.lastIncidentSnapshot (idKey (s.deref r))).isSome)

/-- The held collection has distinct ids: no two held objects have ids with
the same property key. -/
def Responder.DistinctIds (s : Responder) : Prop :=
  (s.incidents.map (fun r => idKey (s.deref r))).Nodup

/-- The severity key of a record, as `updateStats` uses it in
`counts[incident.severity]`. -/
def severityKey (o : JsObject) : String := toPropertyKey (o.get "severity")

/-- Whether the severity of a record is one of critical, serious, medium,
minor. -/
def hasKnownSeverity (o : JsObject) : Bool :=
  decide (severityKey o = "critical") || decide (severityKey o = "serious") ||
  decide (severityKey o = "medium") || decide (severityKey o = "minor")

/-- The quotient and the product of `yesPercent` for a part `a` of a total
`T` that binary64 holds exactly: the rounded quotient times 100, rounded. -/
def roundedPercent (a T : ℕ) : ℚ :=
  nearestBinary64 (nearestBinary64 ((a : ℚ) / (T : ℚ)) * 100)

/-! ## Sample data -/

/-- A dashboard that has loaded one unverified, unclaimed incident with id 1. -/
def sampleLoaded : Responder :=
  loadIncidents Responder.initial
    (FetchResult.success (some [mkIncident 1 "minor" "unverified"]))

/-- The incident of `sampleLoaded` as a later poll returns it: same tracked
fields, other severity, and two further fields. -/
def sampleEdited : JsObject :=
  [("id", JsVal.num 1), ("severity", JsVal.str "critical"), ("status", JsVal.str "unverified"),
   ("claimed_by", JsVal.null), ("responder_priority", JsVal.null),
   ("description", JsVal.str "edited"), ("duplicate_count", JsVal.num 4)]

/-- A collection in which two records carry the id 1 and differ in `status`. -/
def sampleDuplicates : List JsObject :=
  [mkIncident 1 "minor" "unverified", mkIncident 1 "minor" "resolved"]

/-- A collection of two incidents with distinct ids. -/
def samplePair : List JsObject :=
  [mkIncident 1 "minor" "unverified", mkIncident 2 "critical" "resolved"]

/-- A dashboard that loaded `samplePair` while the severity filter was on
`critical`, after which the user set the filter back to `all` (the state in
which the `change` handler then calls `renderIncidents`). -/
def sampleUnsorted : Responder :=
  { loadIncidents { Responder.initial with severityFilter := "critical" }
      (FetchResult.success (some samplePair)) with severityFilter := "all" }

/-- A dashboard holding, in arrival order, a minor, a critical and again a
minor incident, both filters on `all`, before any render: the state
`replaceStore` leaves. -/
def sampleTies : Responder :=
  replaceStore Responder.initial
    [mkIncident 1 "minor" "unverified", mkIncident 2 "critical" "resolved",
     mkIncident 3 "minor" "verified"]

/-- The citizen page with the alert dismissed. -/
def sampleDismissed : IndexPage := { emergencyAlertDisplay := "none" }

/-- A record that is resolved and claimed, with an `updated_at` stamp. -/
def sampleRecord : JsObject :=
  [("id", JsVal.num 7), ("severity", JsVal.str "serious"), ("ai_severity", JsVal.str "medium"),
   ("status", JsVal.str "resolved"), ("claimed_by", JsVal.str "alice"),
   ("responder_priority", JsVal.null), ("updated_at", JsVal.str "2024-01-01T00:00:00.000Z")]

/-- A dashboard that has loaded `sampleRecord` (object 0) and an unclaimed
minor incident with id 8 (object 1). -/
def sampleStore : Responder :=
  loadIncidents Responder.initial
    (FetchResult.success (some [sampleRecord, mkIncident 8 "minor" "unverified"]))

/-- A verified, unclaimed record with id 9 and an `updated_at` stamp. -/
def sampleOpenRecord : JsObject :=
  [("id", JsVal.num 9), ("severity", JsVal.str "medium"), ("status", JsVal.str "verified"),
   ("claimed_by", JsVal.null), ("responder_priority", JsVal.null),
   ("updated_at", JsVal.str "2024-01-01T00:00:00.000Z")]

/-- A dashboard that has loaded `sampleOpenRecord` (object 0). -/
def sampleOpenStore : Responder :=
  loadIncidents Responder.initial (FetchResult.success (some [sampleOpenRecord]))

/-- The dashboard after it loaded `samplePair` and the next cycle failed. -/
def sampleAfterFailure : Responder :=
  loadIncidents (loadIncidents Responder.initial (FetchResult.success (some samplePair)))
    FetchResult.failure

/-- The dashboard of `sampleAfterFailure` after the following cycle succeeded
with `samplePair` again. -/
def sampleAfterRetry : Responder :=
  loadIncidents sampleAfterFailure (FetchResult.success (some samplePair))

/-! ## Lemmas: property lists -/

theorem getProp_setProp {α : Type} (m : List (String × α)) (k k' : String) (v : α) :
    getProp (setProp m k v) k' = if k = k' then some v else getProp m k' := by
  induction m with
  | nil => simp [setProp, getProp]
  | cons e rest ih =>
    obtain ⟨k0, v0⟩ := e
    by_cases h0 : k0 = k
    · subst h0
      by_cases h1 : k0 = k' <;> simp [setProp, getProp, h1]
    · by_cases h1 : k0 = k'
      · subst h1
        simp [setProp, getProp, h0, Ne.symm h0]
      · simp [setProp, getProp, h0, h1, ih]

theorem getProp_buildSnapshot (entries : List (JsObject × Ref)) (k : String) :
    getProp (buildSnapshot entries) k
      = (entries.reverse.find? (fun e => decide (idKey e.1 = k))).map (fun e => e.2) := by
  induction entries using List.reverseRecOn with
  | nil => simp [buildSnapshot, getProp]
  | append_singleton l e ih =>
    have hstep : buildSnapshot (l ++ [e]) = setProp (buildSnapshot l) (idKey e.1) e.2 := by
      simp [buildSnapshot, List.foldl_append, idKey]
    rw [hstep, getProp_setProp, List.reverse_append]
    by_cases h : idKey e.1 = k
    · simp [h, List.find?]
    · simp [h, List.find?, ih]

theorem find_map_of_agree {α β : Type} (f : β → α) (p : α → Bool) (l : List (α × β))
    (h : ∀ e ∈ l, f e.2 = e.1) :
    ((l.find? (fun e => p e.1)).map (fun e => e.2)).map f = (l.map (fun e => e.1)).find? p := by
  induction l with
  | nil => simp
  | cons e t ih =>
    have he := h e (List.mem_cons_self _ _)
    have ht : ∀ x ∈ t, f x.2 = x.1 := fun x hx => h x (List.mem_cons_of_mem _ hx)
    by_cases hp : p e.1 = true
    · simp [List.find?, hp, he]
    · simp only [Bool.not_eq_true] at hp
      simp [List.find?, hp, ih ht]

theorem getD_of_mem_zip_range (pre new : List JsObject) :
    ∀ e ∈ new.zip (List.range' pre.length new.length), (pre ++ new).getD e.2 [] = e.1 := by
  induction new generalizing pre with
  | nil => simp
  | cons a t ih =>
    intro e he
    simp only [List.length_cons, List.range'_succ, List.zip_cons_cons, List.mem_cons] at he
    rcases he with rfl | he
    · simp [List.getElem_append_right]
    · have h := ih (pre ++ [a]) e (by simpa using he)
      simpa using h

/-! ## Lemmas: change detection -/

theorem detectChanges_eq_any (s : Responder) (l : List JsObject) :
    detectChanges s l = l.any (differs s) := by
  have key : ∀ (l : List JsObject) (acc : Bool),
      l.foldl (fun changed inc => if differs s inc then true else changed) acc
        = (acc || l.any (differs s)) := by
    intro l
    induction l with
    | nil => intro acc; simp
    | cons a t ih =>
      intro acc
      simp only [List.foldl_cons, List.any_cons, ih]
      cases differs s a <;> cases acc <;> simp
  simpa [detectChanges] using key l false

theorem differs_eq_false_iff (s : Responder) (inc : JsObject) :
    differs s inc = false ↔
      ∃ r, getProp s.lastIncidentSnapshot (idKey inc) = some r ∧
        trackedFields (s.deref r) = trackedFields inc := by
  unfold differs idKey trackedFields strictNe
  cases getProp s.lastIncidentSnapshot (toPropertyKey (inc.get "id")) with
  | none => simp
  | some r => simp [Prod.ext_iff, and_assoc]

theorem differs_eq_true_iff (s : Responder) (inc : JsObject) :
    differs s inc = true ↔
      getProp s.lastIncidentSnapshot (idKey inc) = none ∨
      ∃ r, getProp s.lastIncidentSnapshot (idKey inc) = some r ∧
        ((s.deref r).get "status" ≠ inc.get "status" ∨
         (s.deref r).get "claimed_by" ≠ inc.get "claimed_by" ∨
         (s.deref r).get "responder_priority" ≠ inc.get "responder_priority") := by
  unfold differs idKey strictNe
  cases getProp s.lastIncidentSnapshot (toPropertyKey (inc.get "id")) with
  | none => simp
  | some r => simp [or_assoc]

theorem differs_showLoading (s : Responder) (inc : JsObject) :
    differs (showLoading s) inc = differs s inc := rfl

theorem detectChanges_showLoading (s : Responder) (l : List JsObject) :
    detectChanges (showLoading s) l = detectChanges s l := by
  simp only [detectChanges, differs_showLoading]

/-! ## Lemmas: the sort is a permutation -/

theorem sortedInsert_perm {α : Type} (cmp : α → α → Option Int) (a : α) (l : List α) :
    (sortedInsert cmp a l).Perm (a :: l) := by
  induction l with
  | nil => simp [sortedInsert]
  | cons b t ih =>
    by_cases h : notAfter cmp a b = true
    · simp [sortedInsert, h]
    · simp only [sortedInsert, h]
      exact (List.Perm.cons b ih).trans (List.Perm.swap a b t)

theorem arraySort_perm {α : Type} (cmp : α → α → Option Int) (l : List α) :
    (arraySort cmp l).Perm l := by
  induction l with
  | nil => simp [arraySort]
  | cons a t ih =>
    simp only [arraySort]
    exact (sortedInsert_perm cmp a _).trans (List.Perm.cons a ih)

theorem renderIncidents_heap (s : Responder) : (renderIncidents s).heap = s.heap := by
  by_cases hlen : (filteredIncidents s).length = 0 <;> simp [renderIncidents, hlen]

theorem renderIncidents_snapshot (s : Responder) :
    (renderIncidents s).lastIncidentSnapshot = s.lastIncidentSnapshot := by
  by_cases hlen : (filteredIncidents s).length = 0 <;> simp [renderIncidents, hlen]

theorem renderIncidents_container (s : Responder) :
    (renderIncidents s).container = projection s := by
  by_cases hlen : (filteredIncidents s).length = 0
  · have hnil : filteredIncidents s = [] := List.length_eq_zero.mp hlen
    simp [renderIncidents, hlen, projection, hnil, arraySort]
  · simp [renderIncidents, hlen]

theorem filteredIncidents_all (s : Responder)
    (h : ¬ (s.severityFilter ≠ "all" ∨ s.statusFilter ≠ "all")) :
    filteredIncidents s = s.incidents := by
  simp only [not_or, not_not] at h
  simp [filteredIncidents, h.1, h.2]

theorem renderIncidents_incidents_of_filter (s : Responder)
    (h : s.severityFilter ≠ "all" ∨ s.statusFilter ≠ "all") :
    (renderIncidents s).incidents = s.incidents := by
  by_cases hlen : (filteredIncidents s).length = 0
  · simp [renderIncidents, hlen]
  · simp only [renderIncidents, hlen, if_false, h, if_true]

theorem renderIncidents_incidents_perm (s : Responder) :
    (renderIncidents s).incidents.Perm s.incidents := by
  by_cases h : s.severityFilter ≠ "all" ∨ s.statusFilter ≠ "all"
  · rw [renderIncidents_incidents_of_filter s h]
  · by_cases hlen : (filteredIncidents s).length = 0
    · simp [renderIncidents, hlen]
    · have hp := arraySort_perm (fun a b => compareSeverity (s.deref a) (s.deref b))
        (filteredIncidents s)
      have hall := filteredIncidents_all s h
      rw [hall] at hp hlen
      simp only [renderIncidents, hall, hlen, if_false, h, projection]
      exact hp

/-! ## Lemmas: the state after a successful cycle -/

theorem loadIncidents_success_heap (s : Responder) (new : List JsObject) :
    (loadIncidents s (FetchResult.success (some new))).heap = s.heap ++ new := by
  simp only [loadIncidents, loadIncidentsComplete, Option.getD_some]
  split
  · simp [renderIncidents_heap, replaceStore, showLoading]
  · simp [replaceStore, showLoading]

theorem loadIncidents_success_snapshot (s : Responder) (new : List JsObject) :
    (loadIncidents s (FetchResult.success (some new))).lastIncidentSnapshot
      = buildSnapshot (new.zip (freshRefs s new)) := by
  simp only [loadIncidents, loadIncidentsComplete, Option.getD_some]
  split
  · simp [renderIncidents_snapshot, replaceStore, showLoading, freshRefs]
  · simp [replaceStore, showLoading, freshRefs]

theorem loadIncidents_success_incidents_perm (s : Responder) (new : List JsObject) :
    (loadIncidents s (FetchResult.success (some new))).incidents.Perm (freshRefs s new) := by
  simp only [loadIncidents, loadIncidentsComplete, Option.getD_some]
  split
  · exact renderIncidents_incidents_perm _
  · exact List.Perm.refl _

theorem snapshot_deref_after_load (s : Responder) (new : List JsObject) (k : String) :
    (getProp (loadIncidents s (FetchResult.success (some new))).lastIncidentSnapshot k).map
        (loadIncidents s (FetchResult.success (some new))).deref
      = new.reverse.find? (fun inc => decide (idKey inc = k)) := by
  rw [loadIncidents_success_snapshot, getProp_buildSnapshot]
  have hderef : (loadIncidents s (FetchResult.success (some new))).deref
      = fun r => (s.heap ++ new).getD r [] := by
    funext r
    simp [Responder.deref, loadIncidents_success_heap]
  rw [hderef]
  have hagree : ∀ e ∈ (new.zip (freshRefs s new)).reverse,
      (fun r => (s.heap ++ new).getD r []) e.2 = e.1 := by
    intro e he
    exact getD_of_mem_zip_range s.heap new e (List.mem_reverse.mp he)
  have h := find_map_of_agree (fun r => (s.heap ++ new).getD r [])
    (fun inc => decide (idKey inc = k)) _ hagree
  rw [h, List.map_reverse]
  congr 2
  exact List.map_fst_zip _ _ (by simp [freshRefs])

theorem map_getD_range (pre new : List JsObject) :
    (List.range' pre.length new.length).map (fun r => (pre ++ new).getD r []) = new := by
  induction new generalizing pre with
  | nil => simp
  | cons a t ih =>
    have h := ih (pre ++ [a])
    simp only [List.length_append, List.length_singleton, List.append_assoc,
      List.singleton_append] at h
    simp only [List.length_cons, List.range'_succ, List.map_cons, h]
    simp [List.getElem_append_right]

theorem snapshot_ref_mem_freshRefs (s : Responder) (new : List JsObject) (k : String) (r : Ref)
    (h : getProp (buildSnapshot (new.zip (freshRefs s new))) k = some r) :
    r ∈ freshRefs s new := by
  rw [getProp_buildSnapshot] at h
  obtain ⟨e, he, rfl⟩ := Option.map_eq_some'.mp h
  have hmem := List.mem_reverse.mp (List.mem_of_find?_eq_some he)
  exact (List.of_mem_zip hmem).2

/-! ## Change detection (C1, C2, C3) -/

/-- C1: when every incident of the new collection has a record under its id in
the snapshot with equal `status`, `claimed_by` and `responder_priority`, the
change signal of `loadIncidents` is false and the cycle does not re-render,
whatever the other fields of the old and new records hold. -/
theorem changed_false_of_tracked_fields_equal (s : Responder) (newIncidents : List JsObject)
    (h : ∀ inc ∈ newIncidents, ∃ r,
      getProp s.lastIncidentSnapshot (toPropertyKey (inc.get "id")) = some r ∧
      (s.deref r).get "status" = inc.get "status" ∧
      (s.deref r).get "claimed_by" = inc.get "claimed_by" ∧
      (s.deref r).get "responder_priority" = inc.get "responder_priority") :
    detectChanges s newIncidents = false ∧
    (loadIncidents s (FetchResult.success (some newIncidents))).container = s.container := by
  have hd : detectChanges s newIncidents = false := by
    rw [detectChanges_eq_any]
    apply Bool.eq_false_iff.mpr
    intro hany
    obtain ⟨inc, hmem, hdiff⟩ := List.any_eq_true.mp hany
    obtain ⟨r, hr, h1, h2, h3⟩ := h inc hmem
    have : differs s inc = false :=
      (differs_eq_false_iff s inc).mpr ⟨r, hr, by simp [trackedFields, h1, h2, h3]⟩
    rw [this] at hdiff
    exact Bool.noConfusion hdiff
  refine ⟨hd, ?_⟩
  have hd2 : detectChanges (showLoading s) newIncidents = false := by
    rw [detectChanges_showLoading, hd]
  simp only [loadIncidents, loadIncidentsComplete, Option.getD_some, hd2]
  rfl

/-- Witness for C1: a poll that returns the loaded incident with another
severity, description and duplicate count reports no change. -/
theorem changed_false_of_tracked_fields_equal_witness :
    detectChanges sampleLoaded [sampleEdited] = false ∧
    (loadIncidents sampleLoaded (FetchResult.success (some [sampleEdited]))).container
      = sampleLoaded.container :=
  changed_false_of_tracked_fields_equal sampleLoaded [sampleEdited] (by
    intro inc hinc
    rw [List.mem_singleton] at hinc
    subst hinc
    exact ⟨0, by decide, by decide, by decide, by decide⟩)

/-- C2: the change signal of `loadIncidents` is true exactly when some incident
of the new collection has no record under its id in the snapshot, or has one
whose `status`, `claimed_by` or `responder_priority` is not equal to its
own. -/
theorem changed_true_iff (s : Responder) (newIncidents : List JsObject) :
    detectChanges s newIncidents = true ↔
      ∃ inc ∈ newIncidents,
        getProp s.lastIncidentSnapshot (toPropertyKey (inc.get "id")) = none ∨
        ∃ r, getProp s.lastIncidentSnapshot (toPropertyKey (inc.get "id")) = some r ∧
          ((s.deref r).get "status" ≠ inc.get "status" ∨
           (s.deref r).get "claimed_by" ≠ inc.get "claimed_by" ∨
           (s.deref r).get "responder_priority" ≠ inc.get "responder_priority") := by
  rw [detectChanges_eq_any, List.any_eq_true]
  constructor
  · rintro ⟨inc, hmem, hdiff⟩
    exact ⟨inc, hmem, (differs_eq_true_iff s inc).mp hdiff⟩
  · rintro ⟨inc, hmem, hcase⟩
    exact ⟨inc, hmem, (differs_eq_true_iff s inc).mpr hcase⟩

/-- C3 as stated fails: after a poll that returned two records with id 1 and
different `status`, the collection obtained by dropping the second record and
leaving the first untouched sets the change signal. -/
theorem changed_true_after_dropping_duplicate :
    List.Sublist [mkIncident 1 "minor" "unverified"] sampleDuplicates ∧
    detectChanges
      (loadIncidents Responder.initial (FetchResult.success (some sampleDuplicates)))
      [mkIncident 1 "minor" "unverified"] = true := by
  refine ⟨?_, by decide⟩
  exact List.Sublist.cons₂ _ (List.nil_sublist _)

/-- C3, amended: after a successful poll of a collection in which records that
share an id agree on the tracked fields (so every collection with distinct
ids), every collection whose records each repeat the id and the tracked fields
of a record of that previous collection, in particular every collection
obtained from it by dropping records, yields a false change signal: an id
that is in the snapshot and not in the new collection is never flagged. -/
theorem changed_false_after_drop (s : Responder) (previous newIncidents : List JsObject)
    (hprev : ∀ a ∈ previous, ∀ b ∈ previous,
      idKey a = idKey b → trackedFields a = trackedFields b)
    (hnew : ∀ n ∈ newIncidents, ∃ p ∈ previous,
      idKey n = idKey p ∧ trackedFields n = trackedFields p) :
    detectChanges (loadIncidents s (FetchResult.success (some previous))) newIncidents
      = false := by
  rw [detectChanges_eq_any]
  apply Bool.eq_false_iff.mpr
  intro hany
  obtain ⟨n, hmem, hdiff⟩ := List.any_eq_true.mp hany
  obtain ⟨p, hp, hkey, htracked⟩ := hnew n hmem
  have hsnap := snapshot_deref_after_load s previous (idKey n)
  have hsome : (previous.reverse.find? (fun inc => decide (idKey inc = idKey n))).isSome := by
    rw [List.find?_isSome]
    exact ⟨p, List.mem_reverse.mpr hp, by simp [hkey]⟩
  obtain ⟨q, hq⟩ := Option.isSome_iff_exists.mp hsome
  rw [hq] at hsnap
  obtain ⟨r, hr, hderef⟩ := Option.map_eq_some'.mp hsnap
  have hqmem : q ∈ previous := List.mem_reverse.mp (List.mem_of_find?_eq_some hq)
  have hqkey : idKey q = idKey n := by
    have := List.find?_some hq
    simpa using this
  have hagree : trackedFields q = trackedFields n := by
    rw [hprev q hqmem p hp (hqkey.trans hkey), htracked]
  have : differs (loadIncidents s (FetchResult.success (some previous))) n = false :=
    (differs_eq_false_iff _ n).mpr ⟨r, hr, by rw [hderef, hagree]⟩
  rw [this] at hdiff
  exact Bool.noConfusion hdiff

/-- Witness for C3, amended: after a poll of two incidents with ids 1 and 2,
the poll that returns only the second one reports no change. -/
theorem changed_false_after_drop_witness :
    detectChanges (loadIncidents Responder.initial (FetchResult.success (some samplePair)))
      [mkIncident 2 "critical" "resolved"] = false :=
  changed_false_after_drop Responder.initial samplePair [mkIncident 2 "critical" "resolved"]
    (by decide) (by decide)

/-! ## Snapshot replacement (C4) -/

/-- A successful `loadIncidents` replaces the snapshot as a whole.  In the
state it returns, a key is in the snapshot exactly when it is the id (as a
property key) of an incident of the new collection, whatever the previous
snapshot held; each key maps to the last incident of the new collection
carrying that id; every snapshot entry is one of the held objects; at the
assignment `incidents = newIncidents` the held collection is the new
collection, and at the end of the cycle it holds the same incidents, in the
order `renderIncidents` left them. -/
theorem loadIncidents_replaces_store (s : Responder) (newIncidents : List JsObject) :
    (∀ k, (getProp (loadIncidents s (FetchResult.success (some newIncidents))).lastIncidentSnapshot
          k).isSome ↔ ∃ inc ∈ newIncidents, toPropertyKey (inc.get "id") = k) ∧
    (∀ k, (getProp (loadIncidents s (FetchResult.success (some newIncidents))).lastIncidentSnapshot
          k).map (loadIncidents s (FetchResult.success (some newIncidents))).deref
        = newIncidents.reverse.find? (fun inc => decide (toPropertyKey (inc.get "id") = k))) ∧
    (∀ k r, getProp (loadIncidents s (FetchResult.success (some newIncidents))).lastIncidentSnapshot
          k = some r →
        r ∈ (loadIncidents s (FetchResult.success (some newIncidents))).incidents) ∧
    (replaceStore (showLoading s) newIncidents).incidents.map
        (replaceStore (showLoading s) newIncidents).deref = newIncidents ∧
    ((loadIncidents s (FetchResult.success (some newIncidents))).incidents.map
        (loadIncidents s (FetchResult.success (some newIncidents))).deref).Perm newIncidents := by
  have hfind := snapshot_deref_after_load s newIncidents
  have hmap : (freshRefs s newIncidents).map
      (loadIncidents s (FetchResult.success (some newIncidents))).deref = newIncidents := by
    have hderef : (loadIncidents s (FetchResult.success (some newIncidents))).deref
        = fun r => (s.heap ++ newIncidents).getD r [] := by
      funext r
      simp [Responder.deref, loadIncidents_success_heap]
    rw [hderef]
    exact map_getD_range s.heap newIncidents
  refine ⟨?_, hfind, ?_, ?_, ?_⟩
  · intro k
    have h := congrArg Option.isSome (hfind k)
    rw [Option.isSome_map'] at h
    rw [h, List.find?_isSome]
    constructor
    · rintro ⟨inc, hmem, hk⟩
      exact ⟨inc, List.mem_reverse.mp hmem, by simpa [idKey] using hk⟩
    · rintro ⟨inc, hmem, hk⟩
      exact ⟨inc, List.mem_reverse.mpr hmem, by simpa [idKey] using hk⟩
  · intro k r hr
    rw [loadIncidents_success_snapshot] at hr
    exact (loadIncidents_success_incidents_perm s newIncidents).mem_iff.mpr
      (snapshot_ref_mem_freshRefs s newIncidents k r hr)
  · exact map_getD_range s.heap newIncidents
  · have hp := (loadIncidents_success_incidents_perm s newIncidents).map
      (loadIncidents s (FetchResult.success (some newIncidents))).deref
    rw [hmap] at hp
    exact hp

/-- C4 fails on the code in its last part: after a successful
`loadIncidents` the held collection need not equal the new collection.  On the
initial dashboard (both filters on `'all'`) a response holding a minor
incident followed by a critical one leaves `incidents` holding the critical
one first, because the cycle ends in `renderIncidents`, which sorts the held
array in place; the snapshot has the two ids as its keys. -/
theorem loadIncidents_reorders_new_collection :
    samplePair = [mkIncident 1 "minor" "unverified", mkIncident 2 "critical" "resolved"] ∧
    (loadIncidents Responder.initial (FetchResult.success (some samplePair))).incidents.map
        (loadIncidents Responder.initial (FetchResult.success (some samplePair))).deref
      = [mkIncident 2 "critical" "resolved", mkIncident 1 "minor" "unverified"] ∧
    (loadIncidents Responder.initial (FetchResult.success (some samplePair))).incidents.map
        (loadIncidents Responder.initial (FetchResult.success (some samplePair))).deref
      ≠ samplePair ∧
    (loadIncidents Responder.initial
        (FetchResult.success (some samplePair))).lastIncidentSnapshot.map Prod.fst
      = ["1", "2"] := by
  decide

/-! ## Lemmas: the sort orders by rank and is stable -/

theorem mem_sortedInsert {α : Type} (cmp : α → α → Option Int) (a x : α) (l : List α) :
    x ∈ sortedInsert cmp a l ↔ x = a ∨ x ∈ l := by
  rw [(sortedInsert_perm cmp a l).mem_iff, List.mem_cons]

theorem sortedInsert_pairwise {α : Type} (cmp : α → α → Option Int) (rk : α → Nat)
    (S : α → Prop)
    (hS : ∀ x y, S x → S y → notAfter cmp x y = decide (rk x ≤ rk y))
    (a : α) (ha : S a) (l : List α) (hl : ∀ x ∈ l, S x)
    (hp : l.Pairwise (fun x y => rk x ≤ rk y)) :
    (sortedInsert cmp a l).Pairwise (fun x y => rk x ≤ rk y) := by
  induction l with
  | nil => simp [sortedInsert]
  | cons b t ih =>
    have hb : S b := hl b (List.mem_cons_self _ _)
    have ht : ∀ x ∈ t, S x := fun x hx => hl x (List.mem_cons_of_mem _ hx)
    obtain ⟨hbt, hpt⟩ := List.pairwise_cons.mp hp
    by_cases h : notAfter cmp a b = true
    · have hab : rk a ≤ rk b := by
        rw [hS a b ha hb] at h
        exact of_decide_eq_true h
      simp only [sortedInsert, h, if_true]
      refine List.pairwise_cons.mpr ⟨?_, hp⟩
      intro x hx
      rcases List.mem_cons.mp hx with rfl | hx
      · exact hab
      · exact le_trans hab (hbt x hx)
    · have hba : rk b ≤ rk a := by
        rw [hS a b ha hb] at h
        have : ¬ rk a ≤ rk b := by simpa using h
        omega
      simp only [sortedInsert, h]
      refine List.pairwise_cons.mpr ⟨?_, ih ht hpt⟩
      intro x hx
      rcases (mem_sortedInsert cmp a x t).mp hx with rfl | hx
      · exact hba
      · exact hbt x hx

theorem sortedInsert_filter {α : Type} (cmp : α → α → Option Int) (rk : α → Nat)
    (S : α → Prop)
    (hS : ∀ x y, S x → S y → notAfter cmp x y = decide (rk x ≤ rk y))
    (k : Nat) (a : α) (ha : S a) (l : List α) (hl : ∀ x ∈ l, S x) :
    (sortedInsert cmp a l).filter (fun x => decide (rk x = k))
      = (a :: l).filter (fun x => decide (rk x = k)) := by
  induction l with
  | nil => simp [sortedInsert]
  | cons b t ih =>
    have hb : S b := hl b (List.mem_cons_self _ _)
    have ht : ∀ x ∈ t, S x := fun x hx => hl x (List.mem_cons_of_mem _ hx)
    by_cases h : notAfter cmp a b = true
    · simp only [sortedInsert, h, if_true]
    · have hlt : rk b < rk a := by
        rw [hS a b ha hb] at h
        have : ¬ rk a ≤ rk b := by simpa using h
        omega
      simp only [sortedInsert, h, Bool.false_eq_true, if_false]
      rw [List.filter_cons, ih ht]
      by_cases hbk : rk b = k
      · have hak : rk a ≠ k := by omega
        simp [List.filter_cons, hbk, hak]
      · by_cases hak : rk a = k <;> simp [List.filter_cons, hbk, hak]

theorem arraySort_pairwise {α : Type} (cmp : α → α → Option Int) (rk : α → Nat)
    (S : α → Prop)
    (hS : ∀ x y, S x → S y → notAfter cmp x y = decide (rk x ≤ rk y))
    (l : List α) (hl : ∀ x ∈ l, S x) :
    (arraySort cmp l).Pairwise (fun x y => rk x ≤ rk y) := by
  induction l with
  | nil => simp [arraySort]
  | cons a t ih =>
    have ht : ∀ x ∈ t, S x := fun x hx => hl x (List.mem_cons_of_mem _ hx)
    simp only [arraySort]
    refine sortedInsert_pairwise cmp rk S hS a (hl a (List.mem_cons_self _ _)) _ ?_ (ih ht)
    intro x hx
    exact ht x ((arraySort_perm cmp t).mem_iff.mp hx)

theorem arraySort_filter {α : Type} (cmp : α → α → Option Int) (rk : α → Nat)
    (S : α → Prop)
    (hS : ∀ x y, S x → S y → notAfter cmp x y = decide (rk x ≤ rk y))
    (k : Nat) (l : List α) (hl : ∀ x ∈ l, S x) :
    (arraySort cmp l).filter (fun x => decide (rk x = k))
      = l.filter (fun x => decide (rk x = k)) := by
  induction l with
  | nil => simp [arraySort]
  | cons a t ih =>
    have ht : ∀ x ∈ t, S x := fun x hx => hl x (List.mem_cons_of_mem _ hx)
    simp only [arraySort]
    rw [sortedInsert_filter cmp rk S hS k a (hl a (List.mem_cons_self _ _)) _
      (fun x hx => ht x ((arraySort_perm cmp t).mem_iff.mp hx))]
    rw [List.filter_cons, List.filter_cons, ih ht]

theorem filteredIncidents_eq_filter (s : Responder) :
    filteredIncidents s = s.incidents.filter (passesFilters s) := by
  have hfun : passesFilters s = fun r =>
      (decide (s.severityFilter = "all") ||
        decide ((s.deref r).get "severity" = JsVal.str s.severityFilter)) &&
      (decide (s.statusFilter = "all") ||
        decide ((s.deref r).get "status" = JsVal.str s.statusFilter)) := rfl
  rw [hfun]
  by_cases h1 : s.severityFilter = "all" <;> by_cases h2 : s.statusFilter = "all" <;>
    simp [filteredIncidents, matchesFilter, h1, h2, List.filter_filter, Bool.and_comm]

theorem filteredIncidents_sublist (s : Responder) :
    (filteredIncidents s).Sublist s.incidents := by
  rw [filteredIncidents_eq_filter]
  exact List.filter_sublist _

theorem notAfter_compareSeverity (a b : JsObject)
    (ha : a.get "severity" ∈ [JsVal.str "critical", JsVal.str "serious", JsVal.str "medium",
      JsVal.str "minor"])
    (hb : b.get "severity" ∈ [JsVal.str "critical", JsVal.str "serious", JsVal.str "medium",
      JsVal.str "minor"]) :
    notAfter compareSeverity a b
      = decide (severityRank (a.get "severity") ≤ severityRank (b.get "severity")) := by
  simp only [List.mem_cons, List.mem_singleton, List.not_mem_nil, or_false] at ha hb
  rcases ha with ha | ha | ha | ha <;> rcases hb with hb | hb | hb | hb <;>
    simp only [notAfter, compareSeverity, ha, hb] <;> decide

/-! ## Filter and sort projection (C5, C6, C7) -/

/-- C5: the sequence rendered by `renderIncidents` holds an incident as many
times as the held collection does when the incident meets both filter
conditions (filter `'all'` or equal to the field), and not at all otherwise;
with both filters on `'all'` it is a rearrangement of the whole collection. -/
theorem renderIncidents_projection_counts (s : Responder) :
    (∀ r, (renderIncidents s).container.count r =
      if (s.severityFilter = "all" ∨ (s.deref r).get "severity" = JsVal.str s.severityFilter) ∧
         (s.statusFilter = "all" ∨ (s.deref r).get "status" = JsVal.str s.statusFilter)
      then s.incidents.count r else 0) ∧
    (renderIncidents { s with severityFilter := "all", statusFilter := "all" }).container.Perm
      s.incidents := by
  constructor
  · intro r
    rw [renderIncidents_container, projection, (arraySort_perm _ _).count_eq,
      filteredIncidents_eq_filter]
    by_cases hp : passesFilters s r = true
    · have hprop : (s.severityFilter = "all" ∨
          (s.deref r).get "severity" = JsVal.str s.severityFilter) ∧
          (s.statusFilter = "all" ∨ (s.deref r).get "status" = JsVal.str s.statusFilter) := by
        simpa [passesFilters] using hp
      rw [if_pos hprop, List.count_filter hp]
    · have hprop : ¬ ((s.severityFilter = "all" ∨
          (s.deref r).get "severity" = JsVal.str s.severityFilter) ∧
          (s.statusFilter = "all" ∨ (s.deref r).get "status" = JsVal.str s.statusFilter)) := by
        simpa [passesFilters] using hp
      rw [if_neg hprop, List.count_eq_zero]
      intro hmem
      exact hp (List.mem_filter.mp hmem).2
  · rw [renderIncidents_container, projection]
    have hall : filteredIncidents { s with severityFilter := "all", statusFilter := "all" }
        = s.incidents := by
      simp [filteredIncidents]
    rw [hall]
    exact arraySort_perm _ _

/-- C6: when every held incident has a severity among critical, serious, medium
and minor, the sequence rendered by `renderIncidents` is ordered by severity
rank, non-decreasing, and for every rank the rendered incidents of that rank
are the filtered incidents of that rank in their order of the held
collection (the filtered sequence being a subsequence of the held one). -/
theorem renderIncidents_sorted_stable (s : Responder)
    (h : ∀ r ∈ s.incidents, (s.deref r).get "severity" ∈
      [JsVal.str "critical", JsVal.str "serious", JsVal.str "medium", JsVal.str "minor"]) :
    (renderIncidents s).container.Pairwise (fun a b =>
      severityRank ((s.deref a).get "severity") ≤ severityRank ((s.deref b).get "severity")) ∧
    (∀ k, (renderIncidents s).container.filter
        (fun r => decide (severityRank ((s.deref r).get "severity") = k))
      = (filteredIncidents s).filter
        (fun r => decide (severityRank ((s.deref r).get "severity") = k))) ∧
    (filteredIncidents s).Sublist s.incidents := by
  have hS : ∀ x y : Ref, x ∈ s.incidents → y ∈ s.incidents →
      notAfter (fun a b => compareSeverity (s.deref a) (s.deref b)) x y
        = decide (severityRank ((s.deref x).get "severity")
            ≤ severityRank ((s.deref y).get "severity")) := by
    intro x y hx hy
    exact notAfter_compareSeverity (s.deref x) (s.deref y) (h x hx) (h y hy)
  have hl : ∀ x ∈ filteredIncidents s, x ∈ s.incidents :=
    fun x hx => (filteredIncidents_sublist s).subset hx
  rw [renderIncidents_container, projection]
  exact ⟨arraySort_pairwise _ (fun r => severityRank ((s.deref r).get "severity"))
      (fun x => x ∈ s.incidents) hS _ hl,
    fun k => arraySort_filter _ (fun r => severityRank ((s.deref r).get "severity"))
      (fun x => x ∈ s.incidents) hS k _ hl,
    filteredIncidents_sublist s⟩

/-- Witness for C6: a minor, a critical and a minor incident are rendered with
the critical one first and the two minor ones in arrival order. -/
theorem renderIncidents_sorted_stable_witness :
    (renderIncidents sampleTies).container = [1, 0, 2] ∧
    (renderIncidents sampleTies).container.Pairwise (fun a b =>
      severityRank ((sampleTies.deref a).get "severity")
        ≤ severityRank ((sampleTies.deref b).get "severity")) :=
  ⟨by decide, (renderIncidents_sorted_stable sampleTies (by decide)).1⟩

/-- C7 fails on the code: with both filters on `'all'` the array that
`renderIncidents` sorts is the held array `incidents` itself.  A held
collection of a minor incident followed by a critical one is reordered by the
call, while a call with an active filter leaves it as it is. -/
theorem renderIncidents_reorders_held_collection :
    sampleUnsorted.incidents = [0, 1] ∧
    (renderIncidents sampleUnsorted).incidents = [1, 0] ∧
    (renderIncidents { sampleUnsorted with statusFilter := "resolved" }).incidents = [0, 1] := by
  decide

/-! ## Lemmas: rounding to binary64 -/

theorem roundHalfEven_le_add_half (q : ℚ) : (roundHalfEven q : ℚ) ≤ q + 1 / 2 := by
  have h1 := Int.floor_le q
  unfold roundHalfEven
  split_ifs with a b c
  · linarith
  · push_cast; linarith
  · linarith
  · push_cast; linarith

theorem sub_half_le_roundHalfEven (q : ℚ) : q - 1 / 2 ≤ (roundHalfEven q : ℚ) := by
  have h1 := Int.lt_floor_add_one q
  unfold roundHalfEven
  split_ifs with a b c
  · linarith
  · push_cast; linarith
  · linarith
  · push_cast; linarith

theorem roundHalfEven_eq_of_near (q : ℚ) (m : ℤ) (h1 : (m : ℚ) - 1 / 2 < q)
    (h2 : q < (m : ℚ) + 1 / 2) : roundHalfEven q = m := by
  have hf1 := Int.floor_le q
  have hf2 := Int.lt_floor_add_one q
  have ha : (⌊q⌋ : ℚ) < (m : ℚ) + 1 := by linarith
  have hb : (m : ℚ) - 1 < (⌊q⌋ : ℚ) + 1 := by linarith
  have ha2 : ⌊q⌋ < m + 1 := by exact_mod_cast ha
  have hb2 : m - 1 < ⌊q⌋ + 1 := by exact_mod_cast hb
  have hcase : ⌊q⌋ = m ∨ ⌊q⌋ = m - 1 := by omega
  unfold roundHalfEven
  rcases hcase with hc | hc
  · rw [hc]
    rw [if_pos (by linarith)]
  · rw [hc]
    have h3 : ¬ (q - ((m - 1 : ℤ) : ℚ) < 1 / 2) := by push_cast; linarith
    have h4 : 1 / 2 < q - ((m - 1 : ℤ) : ℚ) := by push_cast; linarith
    rw [if_neg h3, if_pos h4]
    ring

theorem roundHalfEven_intCast (z : ℤ) : roundHalfEven (z : ℚ) = z :=
  roundHalfEven_eq_of_near (z : ℚ) z (by linarith) (by linarith)

theorem roundHalfEven_tie_even (m : ℤ) (hm : m % 2 = 0) :
    roundHalfEven ((m : ℚ) + 1 / 2) = m := by
  have hfl : ⌊(m : ℚ) + 1 / 2⌋ = m := by
    rw [Int.floor_eq_iff]
    constructor <;> linarith
  unfold roundHalfEven
  rw [hfl]
  have h3 : ¬ ((m : ℚ) + 1 / 2 - (m : ℚ) < 1 / 2) := by linarith
  have h4 : ¬ (1 / 2 < (m : ℚ) + 1 / 2 - (m : ℚ)) := by linarith
  rw [if_neg h3, if_neg h4, if_pos hm]

theorem roundHalfEven_le_of_le (q : ℚ) (K : ℤ) (h : q ≤ (K : ℚ)) : roundHalfEven q ≤ K := by
  have hf1 := Int.floor_le q
  have hfK : ⌊q⌋ ≤ K := by
    have : (⌊q⌋ : ℚ) ≤ (K : ℚ) := by linarith
    exact_mod_cast this
  have hstep : (⌊q⌋ : ℚ) < q → ⌊q⌋ + 1 ≤ K := by
    intro hlt
    have : (⌊q⌋ : ℚ) < (K : ℚ) := by linarith
    have : ⌊q⌋ < K := by exact_mod_cast this
    omega
  unfold roundHalfEven
  split_ifs with a b c
  · exact hfK
  · exact hstep (by linarith)
  · exact hfK
  · exact hstep (by linarith)

theorem le_roundHalfEven_of_le (q : ℚ) (K : ℤ) (h : (K : ℚ) ≤ q) : K ≤ roundHalfEven q := by
  have hfK : K ≤ ⌊q⌋ := Int.le_floor.mpr h
  unfold roundHalfEven
  split_ifs <;> omega


theorem spacingExponent_le (x : ℚ) (e : ℤ) (he : -1022 ≤ e) (h0 : 0 < x)
    (hx : x < (2 : ℚ) ^ (e + 1)) : spacingExponent x ≤ e - 52 := by
  have hlog : Int.log 2 x < e + 1 := by
    have h := (Int.lt_zpow_iff_log_lt (b := 2) (by norm_num) (x := e + 1) h0).mp
      (by simpa using hx)
    exact h
  unfold spacingExponent
  have : max (Int.log 2 x) (-1022) ≤ e := max_le (by omega) he
  omega

theorem le_spacingExponent (x : ℚ) (e : ℤ) (hx : (2 : ℚ) ^ e ≤ x) :
    e - 52 ≤ spacingExponent x := by
  have h0 : 0 < x := lt_of_lt_of_le (by positivity) hx
  have hlog : e ≤ Int.log 2 x :=
    (Int.zpow_le_iff_le_log (b := 2) (by norm_num) (x := e) h0).mp (by simpa using hx)
  unfold spacingExponent
  have : Int.log 2 x ≤ max (Int.log 2 x) (-1022) := le_max_left _ _
  omega

theorem spacingExponent_eq (x : ℚ) (e : ℤ) (he : -1022 ≤ e) (h1 : (2 : ℚ) ^ e ≤ x)
    (h2 : x < (2 : ℚ) ^ (e + 1)) : spacingExponent x = e - 52 :=
  le_antisymm (spacingExponent_le x e he (lt_of_lt_of_le (by positivity) h1) h2)
    (le_spacingExponent x e h1)

theorem mul_zpow_div_zpow (K s t : ℤ) (h : s ≤ t) :
    (K : ℚ) * 2 ^ t / 2 ^ s = ((K * 2 ^ (t - s).toNat : ℤ) : ℚ) := by
  obtain ⟨n, hn⟩ := Int.le.dest h
  have ht : t = s + (n : ℤ) := by omega
  subst ht
  have hs : ((2 : ℚ) ^ s) ≠ 0 := by positivity
  have hn2 : (s + (n : ℤ) - s).toNat = n := by simp
  rw [hn2, zpow_add₀ (by norm_num : (2 : ℚ) ≠ 0), zpow_natCast]
  push_cast
  field_simp
  ring

theorem nearestBinary64_exact (x : ℚ) (K t : ℤ) (hx : x = (K : ℚ) * 2 ^ t)
    (ht : spacingExponent x ≤ t) : nearestBinary64 x = x := by
  unfold nearestBinary64
  have hs : ((2 : ℚ) ^ spacingExponent x) ≠ 0 := by positivity
  have hq : x / 2 ^ spacingExponent x = ((K * 2 ^ (t - spacingExponent x).toNat : ℤ) : ℚ) := by
    rw [← mul_zpow_div_zpow K (spacingExponent x) t ht, ← hx]
  rw [hq, roundHalfEven_intCast, ← hq]
  field_simp

theorem nearestBinary64_le (x : ℚ) (K t : ℤ) (hx : x ≤ (K : ℚ) * 2 ^ t)
    (ht : spacingExponent x ≤ t) : nearestBinary64 x ≤ (K : ℚ) * 2 ^ t := by
  unfold nearestBinary64
  have hs : (0 : ℚ) < 2 ^ spacingExponent x := by positivity
  have hq : (K : ℚ) * 2 ^ t / 2 ^ spacingExponent x
      = ((K * 2 ^ (t - spacingExponent x).toNat : ℤ) : ℚ) :=
    mul_zpow_div_zpow K (spacingExponent x) t ht
  have hle : x / 2 ^ spacingExponent x ≤ ((K * 2 ^ (t - spacingExponent x).toNat : ℤ) : ℚ) := by
    rw [← hq]
    exact div_le_div_of_nonneg_right hx hs.le
  have hr := roundHalfEven_le_of_le _ _ hle
  have hr2 : (roundHalfEven (x / 2 ^ spacingExponent x) : ℚ)
      ≤ ((K * 2 ^ (t - spacingExponent x).toNat : ℤ) : ℚ) := by exact_mod_cast hr
  calc (roundHalfEven (x / 2 ^ spacingExponent x) : ℚ) * 2 ^ spacingExponent x
      ≤ ((K * 2 ^ (t - spacingExponent x).toNat : ℤ) : ℚ) * 2 ^ spacingExponent x :=
        mul_le_mul_of_nonneg_right hr2 hs.le
    _ = (K : ℚ) * 2 ^ t := by rw [← hq]; field_simp

theorem le_nearestBinary64 (x : ℚ) (K t : ℤ) (hx : (K : ℚ) * 2 ^ t ≤ x)
    (ht : spacingExponent x ≤ t) : (K : ℚ) * 2 ^ t ≤ nearestBinary64 x := by
  unfold nearestBinary64
  have hs : (0 : ℚ) < 2 ^ spacingExponent x := by positivity
  have hq : (K : ℚ) * 2 ^ t / 2 ^ spacingExponent x
      = ((K * 2 ^ (t - spacingExponent x).toNat : ℤ) : ℚ) :=
    mul_zpow_div_zpow K (spacingExponent x) t ht
  have hle : ((K * 2 ^ (t - spacingExponent x).toNat : ℤ) : ℚ) ≤ x / 2 ^ spacingExponent x := by
    rw [← hq]
    exact div_le_div_of_nonneg_right hx hs.le
  have hr := le_roundHalfEven_of_le _ _ hle
  have hr2 : ((K * 2 ^ (t - spacingExponent x).toNat : ℤ) : ℚ)
      ≤ (roundHalfEven (x / 2 ^ spacingExponent x) : ℚ) := by exact_mod_cast hr
  calc (K : ℚ) * 2 ^ t
      = ((K * 2 ^ (t - spacingExponent x).toNat : ℤ) : ℚ) * 2 ^ spacingExponent x := by
        rw [← hq]; field_simp
    _ ≤ (roundHalfEven (x / 2 ^ spacingExponent x) : ℚ) * 2 ^ spacingExponent x :=
        mul_le_mul_of_nonneg_right hr2 hs.le

theorem nearestBinary64_nonneg (x : ℚ) (hx : 0 ≤ x) : 0 ≤ nearestBinary64 x := by
  have h := le_nearestBinary64 x 0 (spacingExponent x) (by simpa using hx) le_rfl
  simpa using h

theorem nearestBinary64_error (x : ℚ) :
    |nearestBinary64 x - x| ≤ 2 ^ spacingExponent x / 2 := by
  have hs : (0 : ℚ) < 2 ^ spacingExponent x := by positivity
  have h1 := roundHalfEven_le_add_half (x / 2 ^ spacingExponent x)
  have h2 := sub_half_le_roundHalfEven (x / 2 ^ spacingExponent x)
  have hx : x = x / 2 ^ spacingExponent x * 2 ^ spacingExponent x := by field_simp
  unfold nearestBinary64
  rw [abs_le]
  constructor
  · have := mul_le_mul_of_nonneg_right h2 hs.le
    nlinarith
  · have := mul_le_mul_of_nonneg_right h1 hs.le
    nlinarith

theorem nearestBinary64_eq_of_near (x : ℚ) (e m : ℤ) (he : -1022 ≤ e)
    (h1 : (2 : ℚ) ^ e ≤ x) (h2 : x < (2 : ℚ) ^ (e + 1))
    (hlo : (m : ℚ) - 1 / 2 < x / 2 ^ (e - 52)) (hhi : x / 2 ^ (e - 52) < (m : ℚ) + 1 / 2) :
    nearestBinary64 x = (m : ℚ) * 2 ^ (e - 52) := by
  unfold nearestBinary64
  rw [spacingExponent_eq x e he h1 h2, roundHalfEven_eq_of_near _ m hlo hhi]


theorem spacingExponent_le_of_nonneg (x : ℚ) (e : ℤ) (he : 0 ≤ e) (h0 : 0 ≤ x)
    (hx : x < (2 : ℚ) ^ (e + 1)) : spacingExponent x ≤ e - 52 := by
  rcases h0.eq_or_lt with h | h
  · subst h
    simp only [spacingExponent, Int.log_zero_right]
    have : max (0 : ℤ) (-1022) = 0 := by decide
    omega
  · exact spacingExponent_le x e (by omega) h hx

theorem zpow_le_nearestBinary64 (x : ℚ) (e : ℤ) (he : -1022 ≤ e) (hx : (2 : ℚ) ^ e ≤ x) :
    (2 : ℚ) ^ e ≤ nearestBinary64 x := by
  have h0 : 0 < x := lt_of_lt_of_le (by positivity) hx
  have hl : ((2 : ℕ) : ℚ) ^ Int.log 2 x ≤ x := Int.zpow_log_le_self (by norm_num) h0
  have hel : e ≤ Int.log 2 x :=
    (Int.zpow_le_iff_le_log (b := 2) (by norm_num) (x := e) h0).mp (by simpa using hx)
  have hs : spacingExponent x ≤ Int.log 2 x := by
    unfold spacingExponent
    have : max (Int.log 2 x) (-1022) = Int.log 2 x := max_eq_left (by omega)
    omega
  have h := le_nearestBinary64 x 1 (Int.log 2 x) (by simpa using hl) hs
  have hmono : (2 : ℚ) ^ e ≤ (2 : ℚ) ^ Int.log 2 x := zpow_le_zpow_right₀ (by norm_num) hel
  calc (2 : ℚ) ^ e ≤ (2 : ℚ) ^ Int.log 2 x := hmono
    _ ≤ nearestBinary64 x := by simpa using h

theorem roundToBinary64_of_lt (x : ℚ) (h : nearestBinary64 x < (2 : ℚ) ^ (1024 : ℕ)) :
    roundToBinary64 x = Binary64.finite (nearestBinary64 x) := by
  unfold roundToBinary64
  rw [if_neg (not_le.mpr h)]

theorem roundToBinary64_of_le (x B : ℚ) (h : nearestBinary64 x ≤ B)
    (hB : B < (2 : ℚ) ^ (1024 : ℕ)) :
    roundToBinary64 x = Binary64.finite (nearestBinary64 x) :=
  roundToBinary64_of_lt x (lt_of_le_of_lt h hB)

theorem nearestBinary64_natCast (n : ℕ) (h : n ≤ 2 ^ 53) : nearestBinary64 (n : ℚ) = n := by
  rcases Nat.lt_or_ge n (2 ^ 53) with hlt | hge
  · have hq : ((n : ℚ)) < (2 : ℚ) ^ ((52 : ℤ) + 1) := by
      have h1 : ((n : ℚ)) < ((2 ^ 53 : ℕ) : ℚ) := by exact_mod_cast hlt
      have h2 : (((2 ^ 53 : ℕ) : ℚ)) = (2 : ℚ) ^ ((52 : ℤ) + 1) := by norm_num
      rw [← h2]
      exact h1
    have hs := spacingExponent_le_of_nonneg (n : ℚ) 52 (by norm_num) (by positivity) hq
    exact nearestBinary64_exact (n : ℚ) (n : ℤ) 0 (by simp) (by omega)
  · have hn : n = 2 ^ 53 := le_antisymm h hge
    subst hn
    have hq : (((2 ^ 53 : ℕ) : ℚ)) < (2 : ℚ) ^ ((53 : ℤ) + 1) := by norm_num
    have hs := spacingExponent_le_of_nonneg ((2 ^ 53 : ℕ) : ℚ) 53 (by norm_num)
      (by positivity) hq
    exact nearestBinary64_exact ((2 ^ 53 : ℕ) : ℚ) 1 53 (by norm_num) (by omega)

theorem roundToBinary64_natCast (n : ℕ) (h : n ≤ 2 ^ 53) :
    roundToBinary64 (n : ℚ) = Binary64.finite (n : ℚ) := by
  have hn := nearestBinary64_natCast n h
  have hle : ((n : ℚ)) ≤ ((2 ^ 53 : ℕ) : ℚ) := by exact_mod_cast h
  rw [roundToBinary64_of_le (n : ℚ) ((2 ^ 53 : ℕ) : ℚ) (by rw [hn]; exact hle) (by norm_num), hn]

theorem toNumber_of_le (n : ℕ) (h : n ≤ 2 ^ 53) : toNumber n = Binary64.finite (n : ℚ) :=
  roundToBinary64_natCast n h

theorem verificationTotal_of_le (counts : VerificationCounts)
    (h : counts.yes + counts.no + counts.unsure ≤ 2 ^ 53) :
    verificationTotal counts
      = Binary64.finite ((counts.yes + counts.no + counts.unsure : ℕ) : ℚ) := by
  unfold verificationTotal
  rw [toNumber_of_le counts.yes (by omega), toNumber_of_le counts.no (by omega),
    toNumber_of_le counts.unsure (by omega)]
  have h1 : Binary64.add (Binary64.finite (counts.yes : ℚ)) (Binary64.finite (counts.no : ℚ))
      = Binary64.finite ((counts.yes + counts.no : ℕ) : ℚ) := by
    show roundToBinary64 ((counts.yes : ℚ) + (counts.no : ℚ)) = _
    rw [← Nat.cast_add]
    exact roundToBinary64_natCast _ (by omega)
  rw [h1]
  show roundToBinary64 (((counts.yes + counts.no : ℕ) : ℚ) + (counts.unsure : ℚ)) = _
  rw [← Nat.cast_add]
  exact roundToBinary64_natCast _ h


theorem roundHalfEven_le_of_lt_add_half (q : ℚ) (K : ℤ) (h : q < (K : ℚ) + 1 / 2) :
    roundHalfEven q ≤ K := by
  have h1 := roundHalfEven_le_add_half q
  have h2 : (roundHalfEven q : ℚ) < ((K + 1 : ℤ) : ℚ) := by push_cast; linarith
  have h3 : roundHalfEven q < K + 1 := by exact_mod_cast h2
  omega

theorem nearestBinary64_zero : nearestBinary64 0 = 0 := by
  simpa using nearestBinary64_natCast 0 (by norm_num)

theorem nearestBinary64_one : nearestBinary64 1 = 1 := by
  simpa using nearestBinary64_natCast 1 (by norm_num)

theorem nearestBinary64_hundred : nearestBinary64 100 = 100 := by
  simpa using nearestBinary64_natCast 100 (by norm_num)

/-- Rounding keeps a ratio in the unit interval. -/
theorem nearestBinary64_unit (x : ℚ) (h0 : 0 ≤ x) (h1 : x ≤ 1) :
    0 ≤ nearestBinary64 x ∧ nearestBinary64 x ≤ 1 := by
  refine ⟨nearestBinary64_nonneg x h0, ?_⟩
  have hs := spacingExponent_le_of_nonneg x 0 le_rfl h0 (by norm_num; linarith)
  have h := nearestBinary64_le x 1 0 (by simpa using h1) (by omega)
  simpa using h

/-- Rounding keeps a percentage between 0 and 100. -/
theorem nearestBinary64_percent (y : ℚ) (h0 : 0 ≤ y) (h1 : y ≤ 100) :
    0 ≤ nearestBinary64 y ∧ nearestBinary64 y ≤ 100 := by
  refine ⟨nearestBinary64_nonneg y h0, ?_⟩
  have hs := spacingExponent_le_of_nonneg y 6 (by norm_num) h0 (by norm_num; linarith)
  have h := nearestBinary64_le y 100 0 (by simpa using h1) (by omega)
  simpa using h

/-- Below one, the error of rounding is at most `2 ^ (-54)`. -/
theorem nearestBinary64_unit_error (x : ℚ) (h0 : 0 ≤ x) (h1 : x ≤ 1) :
    |nearestBinary64 x - x| ≤ 1 / 2 ^ 54 := by
  rcases h0.eq_or_lt with h | hpos
  · subst h
    rw [nearestBinary64_zero]
    norm_num
  rcases h1.eq_or_lt with h | hlt
  · subst h
    rw [nearestBinary64_one]
    norm_num
  have hs := spacingExponent_le x (-1) (by norm_num) hpos (by norm_num; linarith)
  have hmono : (2 : ℚ) ^ spacingExponent x ≤ (2 : ℚ) ^ (-53 : ℤ) :=
    zpow_le_zpow_right₀ (by norm_num) (by omega)
  have herr := nearestBinary64_error x
  have hval : (2 : ℚ) ^ (-53 : ℤ) / 2 = 1 / 2 ^ 54 := by norm_num [zpow_neg]
  calc |nearestBinary64 x - x| ≤ 2 ^ spacingExponent x / 2 := herr
    _ ≤ (2 : ℚ) ^ (-53 : ℤ) / 2 := div_le_div_of_nonneg_right hmono (by norm_num)
    _ = 1 / 2 ^ 54 := hval

/-- Up to one hundred, the error of rounding is at most `2 ^ (-47)`. -/
theorem nearestBinary64_percent_error (y : ℚ) (h0 : 0 ≤ y) (h1 : y ≤ 100) :
    |nearestBinary64 y - y| ≤ 1 / 2 ^ 47 := by
  have hs := spacingExponent_le_of_nonneg y 6 (by norm_num) h0 (by norm_num; linarith)
  have hmono : (2 : ℚ) ^ spacingExponent y ≤ (2 : ℚ) ^ (-46 : ℤ) :=
    zpow_le_zpow_right₀ (by norm_num) (by omega)
  have herr := nearestBinary64_error y
  have hval : (2 : ℚ) ^ (-46 : ℤ) / 2 = 1 / 2 ^ 47 := by norm_num [zpow_neg]
  calc |nearestBinary64 y - y| ≤ 2 ^ spacingExponent y / 2 := herr
    _ ≤ (2 : ℚ) ^ (-46 : ℤ) / 2 := div_le_div_of_nonneg_right hmono (by norm_num)
    _ = 1 / 2 ^ 47 := hval

/-- A ratio at most `1 - 2 ^ (-53)` rounds to at most `1 - 2 ^ (-53)`. -/
theorem nearestBinary64_below_one (x : ℚ) (h0 : 0 ≤ x) (h1 : x ≤ 1 - 1 / 2 ^ 53) :
    nearestBinary64 x ≤ 1 - 1 / 2 ^ 53 := by
  rcases h0.eq_or_lt with h | hpos
  · subst h
    rw [nearestBinary64_zero]
    norm_num
  have hlt : x < (2 : ℚ) ^ ((-1 : ℤ) + 1) := by
    have : (1 : ℚ) - 1 / 2 ^ 53 < 1 := by norm_num
    simp only [neg_add_cancel, zpow_zero]
    linarith
  have hs := spacingExponent_le x (-1) (by norm_num) hpos hlt
  have hval : (((2 ^ 53 - 1 : ℤ)) : ℚ) * 2 ^ (-53 : ℤ) = 1 - 1 / 2 ^ 53 := by
    norm_num [zpow_neg]
  have h := nearestBinary64_le x (2 ^ 53 - 1) (-53) (by rw [hval]; exact h1) (by omega)
  rw [hval] at h
  exact h

/-- A product at most `100 - 100 * 2 ^ (-53)` rounds below one hundred. -/
theorem nearestBinary64_below_hundred (y : ℚ) (h0 : 0 ≤ y)
    (h1 : y ≤ 100 - 100 / 2 ^ 53) : nearestBinary64 y < 100 := by
  rcases lt_or_le y 64 with hlt | hge
  · have hs := spacingExponent_le_of_nonneg y 5 (by norm_num) h0 (by norm_num; linarith)
    have h := nearestBinary64_le y 1 6 (by norm_num; linarith) (by omega)
    have hval : ((1 : ℤ) : ℚ) * 2 ^ (6 : ℤ) = 64 := by norm_num
    rw [hval] at h
    linarith
  · have hy128 : y < (2 : ℚ) ^ ((6 : ℤ) + 1) := by
      have : (100 : ℚ) - 100 / 2 ^ 53 < 128 := by norm_num
      have h128 : (2 : ℚ) ^ ((6 : ℤ) + 1) = 128 := by norm_num
      rw [h128]
      linarith
    have hs := spacingExponent_eq y 6 (by norm_num) (by norm_num; linarith) hy128
    have hs46 : spacingExponent y = -46 := by omega
    have hpow : (2 : ℚ) ^ (-46 : ℤ) = 1 / 2 ^ 46 := by norm_num [zpow_neg]
    have hq : y / (2 : ℚ) ^ (-46 : ℤ) < (((100 * 2 ^ 46 - 1 : ℤ)) : ℚ) + 1 / 2 := by
      rw [hpow]
      have : y / (1 / 2 ^ 46) = y * 2 ^ 46 := by field_simp
      rw [this]
      push_cast
      have h2 : y * 2 ^ 46 ≤ (100 - 100 / 2 ^ 53) * 2 ^ 46 :=
        mul_le_mul_of_nonneg_right h1 (by positivity)
      have h3 : ((100 : ℚ) - 100 / 2 ^ 53) * 2 ^ 46 < 100 * 2 ^ 46 - 1 + 1 / 2 := by norm_num
      linarith
    have hr := roundHalfEven_le_of_lt_add_half _ _ hq
    have hr2 : (roundHalfEven (y / (2 : ℚ) ^ (-46 : ℤ)) : ℚ) ≤ (((100 * 2 ^ 46 - 1 : ℤ)) : ℚ) := by
      exact_mod_cast hr
    unfold nearestBinary64
    rw [hs46, hpow]
    rw [hpow] at hr2
    have h4 : (roundHalfEven (y / (1 / 2 ^ 46)) : ℚ) * (1 / 2 ^ 46)
        ≤ (((100 * 2 ^ 46 - 1 : ℤ)) : ℚ) * (1 / 2 ^ 46) :=
      mul_le_mul_of_nonneg_right hr2 (by positivity)
    have h5 : (((100 * 2 ^ 46 - 1 : ℤ)) : ℚ) * (1 / 2 ^ 46) < 100 := by norm_num
    linarith

theorem ratio_unit (a T : ℕ) (hT : 0 < T) (haT : a ≤ T) :
    0 ≤ (a : ℚ) / (T : ℚ) ∧ (a : ℚ) / (T : ℚ) ≤ 1 := by
  have hTq : (0 : ℚ) < (T : ℚ) := by exact_mod_cast hT
  have haq : (a : ℚ) ≤ (T : ℚ) := by exact_mod_cast haT
  exact ⟨by positivity, (div_le_one hTq).mpr haq⟩

theorem yesPercent_of_le (counts : VerificationCounts)
    (h : counts.yes + counts.no + counts.unsure ≤ 2 ^ 53)
    (hpos : 0 < counts.yes + counts.no + counts.unsure) :
    yesPercent counts
      = Binary64.finite (roundedPercent counts.yes (counts.yes + counts.no + counts.unsure)) := by
  have hTq : (0 : ℚ) < ((counts.yes + counts.no + counts.unsure : ℕ) : ℚ) := by
    exact_mod_cast hpos
  obtain ⟨hx0, hx1⟩ := ratio_unit counts.yes (counts.yes + counts.no + counts.unsure) hpos
    (by omega)
  obtain ⟨hd0, hd1⟩ := nearestBinary64_unit _ hx0 hx1
  have hy1 : nearestBinary64 ((counts.yes : ℚ)
      / ((counts.yes + counts.no + counts.unsure : ℕ) : ℚ)) * 100 ≤ 100 := by linarith
  obtain ⟨hp0, hp1⟩ := nearestBinary64_percent _ (by positivity) hy1
  unfold yesPercent
  rw [verificationTotal_of_le counts h, toNumber_of_le counts.yes (by omega)]
  have hgt : (Binary64.finite ((counts.yes + counts.no + counts.unsure : ℕ) : ℚ)).gtZero
      = true := by
    simp only [Binary64.gtZero, decide_eq_true_eq]
    exact hTq
  rw [if_pos hgt]
  have hdiv : (Binary64.finite (counts.yes : ℚ)).div
      (Binary64.finite ((counts.yes + counts.no + counts.unsure : ℕ) : ℚ))
      = Binary64.finite (nearestBinary64 ((counts.yes : ℚ)
          / ((counts.yes + counts.no + counts.unsure : ℕ) : ℚ))) := by
    simp only [Binary64.div]
    rw [if_neg (ne_of_gt hTq)]
    exact roundToBinary64_of_le _ 1 hd1 (by norm_num)
  rw [hdiv]
  show roundToBinary64 _ = _
  exact roundToBinary64_of_le _ 100 hp1 (by norm_num)

theorem roundedPercent_bounds (a T : ℕ) (hT : 0 < T) (haT : a ≤ T) :
    0 ≤ roundedPercent a T ∧ roundedPercent a T ≤ 100 := by
  obtain ⟨hx0, hx1⟩ := ratio_unit a T hT haT
  obtain ⟨hd0, hd1⟩ := nearestBinary64_unit _ hx0 hx1
  exact nearestBinary64_percent _ (by positivity) (by linarith)

theorem roundedPercent_self (T : ℕ) (hT : 0 < T) : roundedPercent T T = 100 := by
  have hTq : ((T : ℚ)) ≠ 0 := by exact_mod_cast (Nat.pos_iff_ne_zero.mp hT)
  unfold roundedPercent
  rw [div_self hTq, nearestBinary64_one, one_mul, nearestBinary64_hundred]

theorem roundedPercent_zero (T : ℕ) : roundedPercent 0 T = 0 := by
  unfold roundedPercent
  simp [nearestBinary64_zero]

theorem roundedPercent_lt (a T : ℕ) (haT : a < T) (hT : T ≤ 2 ^ 53) :
    roundedPercent a T < 100 := by
  have hT0 : 0 < T := by omega
  have hTq : (0 : ℚ) < (T : ℚ) := by exact_mod_cast hT0
  have hT53 : (T : ℚ) ≤ 2 ^ 53 := by exact_mod_cast hT
  have ha1 : (a : ℚ) + 1 ≤ (T : ℚ) := by exact_mod_cast haT
  obtain ⟨hx0, hx1⟩ := ratio_unit a T hT0 haT.le
  have hinv : (1 : ℚ) / 2 ^ 53 ≤ 1 / (T : ℚ) := one_div_le_one_div_of_le hTq hT53
  have hx : (a : ℚ) / (T : ℚ) ≤ 1 - 1 / 2 ^ 53 := by
    have h1 : (a : ℚ) / (T : ℚ) ≤ ((T : ℚ) - 1) / (T : ℚ) :=
      div_le_div_of_nonneg_right (by linarith) hTq.le
    have h2 : ((T : ℚ) - 1) / (T : ℚ) = 1 - 1 / (T : ℚ) := by field_simp
    linarith
  have hd := nearestBinary64_below_one _ hx0 hx
  have hd0 := nearestBinary64_nonneg _ hx0
  unfold roundedPercent
  apply nearestBinary64_below_hundred _ (by positivity)
  linarith

theorem roundedPercent_pos (a T : ℕ) (ha : 0 < a) (haT : a ≤ T) (hT : T ≤ 2 ^ 53) :
    0 < roundedPercent a T := by
  have hT0 : 0 < T := by omega
  have hTq : (0 : ℚ) < (T : ℚ) := by exact_mod_cast hT0
  have hT53 : (T : ℚ) ≤ 2 ^ 53 := by exact_mod_cast hT
  have ha1 : (1 : ℚ) ≤ (a : ℚ) := by exact_mod_cast ha
  have hinv : (1 : ℚ) / 2 ^ 53 ≤ 1 / (T : ℚ) := one_div_le_one_div_of_le hTq hT53
  have hx : (2 : ℚ) ^ (-53 : ℤ) ≤ (a : ℚ) / (T : ℚ) := by
    have h1 : (1 : ℚ) / (T : ℚ) ≤ (a : ℚ) / (T : ℚ) :=
      div_le_div_of_nonneg_right ha1 hTq.le
    have h2 : (2 : ℚ) ^ (-53 : ℤ) = 1 / 2 ^ 53 := by norm_num [zpow_neg]
    rw [h2]
    linarith
  have hd := zpow_le_nearestBinary64 _ (-53) (by norm_num) hx
  have hy : (2 : ℚ) ^ (-47 : ℤ) ≤ nearestBinary64 ((a : ℚ) / (T : ℚ)) * 100 := by
    have h2 : (2 : ℚ) ^ (-53 : ℤ) = 1 / 2 ^ 53 := by norm_num [zpow_neg]
    have h3 : (2 : ℚ) ^ (-47 : ℤ) = 1 / 2 ^ 47 := by norm_num [zpow_neg]
    rw [h2] at hd
    rw [h3]
    have h4 : (1 : ℚ) / 2 ^ 47 ≤ 1 / 2 ^ 53 * 100 := by norm_num
    linarith
  have hp := zpow_le_nearestBinary64 _ (-47) (by norm_num) hy
  unfold roundedPercent
  exact lt_of_lt_of_le (by positivity) hp

theorem roundedPercent_error (a T : ℕ) (hT : 0 < T) (haT : a ≤ T) :
    |roundedPercent a T - (a : ℚ) / (T : ℚ) * 100| ≤ 1 / 2 ^ 46 := by
  obtain ⟨hx0, hx1⟩ := ratio_unit a T hT haT
  obtain ⟨hd0, hd1⟩ := nearestBinary64_unit _ hx0 hx1
  have he1 := nearestBinary64_unit_error _ hx0 hx1
  have he2 := nearestBinary64_percent_error (nearestBinary64 ((a : ℚ) / (T : ℚ)) * 100)
    (by positivity) (by linarith)
  unfold roundedPercent
  rw [abs_le] at he1 he2 ⊢
  have hc : (1 : ℚ) / 2 ^ 47 + 100 * (1 / 2 ^ 54) ≤ 1 / 2 ^ 46 := by norm_num
  constructor <;> linarith [he1.1, he1.2, he2.1, he2.2]


theorem roundedPercent_three_of_four : roundedPercent 3 4 = 75 := by
  have hx : ((3 : ℕ) : ℚ) / ((4 : ℕ) : ℚ) = ((3 : ℤ) : ℚ) * 2 ^ (-2 : ℤ) := by
    norm_num [zpow_neg]
  have hs := spacingExponent_le (((3 : ℕ) : ℚ) / ((4 : ℕ) : ℚ)) (-1) (by norm_num)
    (by norm_num) (by norm_num)
  have hd := nearestBinary64_exact _ 3 (-2) hx (by omega)
  unfold roundedPercent
  rw [hd]
  have h75 : ((3 : ℕ) : ℚ) / ((4 : ℕ) : ℚ) * 100 = ((75 : ℕ) : ℚ) := by norm_num
  rw [h75, nearestBinary64_natCast 75 (by norm_num)]
  norm_num

theorem roundedPercent_seven_of_twentyfive : roundedPercent 7 25 = 28 + 1 / 2 ^ 48 := by
  have hd : nearestBinary64 (((7 : ℕ) : ℚ) / ((25 : ℕ) : ℚ))
      = ((5044031582654956 : ℤ) : ℚ) * 2 ^ ((-2 : ℤ) - 52) :=
    nearestBinary64_eq_of_near _ (-2) 5044031582654956 (by norm_num)
      (by norm_num [zpow_neg]) (by norm_num) (by norm_num [zpow_neg]) (by norm_num [zpow_neg])
  have hy : ((5044031582654956 : ℤ) : ℚ) * 2 ^ ((-2 : ℤ) - 52) * 100
      = 31525197391593475 / 1125899906842624 := by norm_num [zpow_neg]
  have hp : nearestBinary64 (31525197391593475 / 1125899906842624)
      = ((7881299347898369 : ℤ) : ℚ) * 2 ^ ((4 : ℤ) - 52) :=
    nearestBinary64_eq_of_near _ 4 7881299347898369 (by norm_num)
      (by norm_num) (by norm_num) (by norm_num [zpow_neg]) (by norm_num [zpow_neg])
  unfold roundedPercent
  rw [hd, hy, hp]
  norm_num [zpow_neg]

theorem nearestBinary64_tie_above_two_pow_53 :
    nearestBinary64 ((2 : ℚ) ^ 53 + 1) = 2 ^ 53 := by
  have hs := spacingExponent_eq ((2 : ℚ) ^ 53 + 1) 53 (by norm_num) (by norm_num) (by norm_num)
  have hq : ((2 : ℚ) ^ 53 + 1) / 2 ^ ((53 : ℤ) - 52) = ((2 ^ 52 : ℤ) : ℚ) + 1 / 2 := by
    norm_num
  unfold nearestBinary64
  rw [hs, hq, roundHalfEven_tie_even (2 ^ 52) (by decide)]
  norm_num


theorem yesPercent_of_total_zero (counts : VerificationCounts)
    (h : counts.yes + counts.no + counts.unsure = 0) :
    yesPercent counts = Binary64.finite 0 := by
  have hv := verificationTotal_of_le counts (by omega)
  unfold yesPercent
  rw [hv, h]
  simp [Binary64.gtZero]

/-! ## Verification bar (C8) -/

/-- C8 as stated fails: for counts (7, 18, 0) the exact value of
`yes / total * 100` is 28, and `renderVerification` sets the bar width to the
binary64 number `28 + 2 ^ (-48)` (printed `28.000000000000004`), because the
quotient 7 / 25 is rounded before it is multiplied by 100. -/
theorem renderVerification_bar_width_inexact :
    (renderVerification { yes := 7, no := 18, unsure := 0 }).barWidth
      = Binary64.finite (28 + 1 / 2 ^ 48) ∧
    (renderVerification { yes := 7, no := 18, unsure := 0 }).barWidth
      ≠ Binary64.finite ((7 : ℚ) / (7 + 18 + 0) * 100) := by
  have hw : (renderVerification { yes := 7, no := 18, unsure := 0 }).barWidth
      = Binary64.finite (28 + 1 / 2 ^ 48) := by
    show yesPercent { yes := 7, no := 18, unsure := 0 } = _
    rw [yesPercent_of_le { yes := 7, no := 18, unsure := 0 } (by decide) (by decide)]
    exact congrArg Binary64.finite roundedPercent_seven_of_twentyfive
  refine ⟨hw, ?_⟩
  rw [hw]
  intro hEq
  have hq : (28 : ℚ) + 1 / 2 ^ 48 = (7 : ℚ) / (7 + 18 + 0) * 100 := Binary64.finite.inj hEq
  norm_num at hq

/-- C8, amended: for counts whose sum is at most `2 ^ 53`,
`renderVerification` computes `total` as exactly `yes + no + unsure`; the bar
width is 0 when the total is 0 (no division takes place) and otherwise a
finite number within `2 ^ (-46)` of `yes / total * 100` (the quotient and the
product are each rounded to binary64); counts (0, 0, 0) give exactly 0 and
counts (3, 1, 0) give exactly 75. -/
theorem renderVerification_bar_width (counts : VerificationCounts)
    (h : counts.yes + counts.no + counts.unsure ≤ 2 ^ 53) :
    verificationTotal counts
      = Binary64.finite ((counts.yes + counts.no + counts.unsure : ℕ) : ℚ) ∧
    (counts.yes + counts.no + counts.unsure = 0 →
      (renderVerification counts).barWidth = Binary64.finite 0) ∧
    (0 < counts.yes + counts.no + counts.unsure →
      ∃ p : ℚ, (renderVerification counts).barWidth = Binary64.finite p ∧
        |p - (counts.yes : ℚ) / ((counts.yes + counts.no + counts.unsure : ℕ) : ℚ) * 100|
          ≤ 1 / 2 ^ 46) ∧
    (renderVerification { yes := 0, no := 0, unsure := 0 }).barWidth = Binary64.finite 0 ∧
    (renderVerification { yes := 3, no := 1, unsure := 0 }).barWidth = Binary64.finite 75 := by
  refine ⟨verificationTotal_of_le counts h, yesPercent_of_total_zero counts, ?_, ?_, ?_⟩
  · intro hpos
    exact ⟨_, yesPercent_of_le counts h hpos,
      roundedPercent_error counts.yes _ hpos (by omega)⟩
  · exact yesPercent_of_total_zero _ rfl
  · show yesPercent { yes := 3, no := 1, unsure := 0 } = _
    rw [yesPercent_of_le { yes := 3, no := 1, unsure := 0 } (by decide) (by decide)]
    exact congrArg Binary64.finite roundedPercent_three_of_four

/-- Witness for C8: counts (7, 18, 0), whose sum 25 is below `2 ^ 53`, give a
total of exactly 25 and a bar width within `2 ^ (-46)` of 28. -/
theorem renderVerification_bar_width_witness :
    verificationTotal { yes := 7, no := 18, unsure := 0 } = Binary64.finite ((25 : ℕ) : ℚ) ∧
    ∃ p : ℚ, (renderVerification { yes := 7, no := 18, unsure := 0 }).barWidth
        = Binary64.finite p ∧
      |p - ((7 : ℕ) : ℚ) / ((25 : ℕ) : ℚ) * 100| ≤ 1 / 2 ^ 46 :=
  ⟨(renderVerification_bar_width { yes := 7, no := 18, unsure := 0 } (by decide)).1,
   (renderVerification_bar_width { yes := 7, no := 18, unsure := 0 } (by decide)).2.2.1
     (by decide)⟩

/-! ## Emergency alert (C9, C10) -/

/-- C9: `checkHighSeverityAlerts` shows the alert exactly when some incident
has severity `critical` or `serious`, a distance containing `km`, and a
leading number, as `parseFloat` reads it, below 1; otherwise it leaves the
alert as it was.  From a dismissed alert, a critical incident at `0.5km`
raises it; a minor one at `0.1km`, a critical one at `2km` and a critical one
at exactly `1km` do not. -/
theorem checkHighSeverityAlerts_raises_iff (page : IndexPage) (incidents : List NearbyIncident) :
    (checkHighSeverityAlerts page incidents).emergencyAlertDisplay =
      (if ∃ inc ∈ incidents,
          (inc.severity = JsVal.str "critical" ∨ inc.severity = JsVal.str "serious") ∧
          stringIncludes inc.distance "km" = true ∧
          (parseFloat inc.distance).ltOne = true
        then "flex" else page.emergencyAlertDisplay) ∧
    (checkHighSeverityAlerts sampleDismissed
      [{ severity := JsVal.str "critical", distance := "0.5km" }]).emergencyAlertDisplay
        = "flex" ∧
    (checkHighSeverityAlerts sampleDismissed
      [{ severity := JsVal.str "minor", distance := "0.1km" }]).emergencyAlertDisplay
        = "none" ∧
    (checkHighSeverityAlerts sampleDismissed
      [{ severity := JsVal.str "critical", distance := "2km" }]).emergencyAlertDisplay
        = "none" ∧
    (checkHighSeverityAlerts sampleDismissed
      [{ severity := JsVal.str "critical", distance := "1km" }]).emergencyAlertDisplay
        = "none" := by
  refine ⟨?_, by decide, by decide, by decide, by decide⟩
  have hiff : (∃ inc ∈ incidents,
      (inc.severity = JsVal.str "critical" ∨ inc.severity = JsVal.str "serious") ∧
      stringIncludes inc.distance "km" = true ∧
      (parseFloat inc.distance).ltOne = true)
      ↔ (incidents.filter isHighSeverityNearby).length > 0 := by
    rw [gt_iff_lt, List.length_pos_iff_exists_mem]
    constructor
    · rintro ⟨inc, hmem, hsev, hkm, hlt⟩
      refine ⟨inc, List.mem_filter.mpr ⟨hmem, ?_⟩⟩
      simp only [isHighSeverityNearby, hkm, hlt, Bool.and_true, Bool.or_eq_true,
        decide_eq_true_eq]
      exact hsev
    · rintro ⟨inc, hmem⟩
      obtain ⟨hin, hq⟩ := List.mem_filter.mp hmem
      simp only [isHighSeverityNearby, Bool.and_eq_true, Bool.or_eq_true,
        decide_eq_true_eq] at hq
      exact ⟨inc, hin, hq.1.1, hq.1.2, hq.2⟩
  by_cases hex : ∃ inc ∈ incidents,
      (inc.severity = JsVal.str "critical" ∨ inc.severity = JsVal.str "serious") ∧
      stringIncludes inc.distance "km" = true ∧
      (parseFloat inc.distance).ltOne = true
  · rw [if_pos hex]
    simp only [checkHighSeverityAlerts, hiff.mp hex, if_true, showEmergencyAlert]
  · rw [if_neg hex]
    have hlen : ¬ (incidents.filter isHighSeverityNearby).length > 0 := fun hl => hex (hiff.mpr hl)
    simp only [checkHighSeverityAlerts, hlen, if_false]

/-- C10: a list in which no distance contains `km`, such as distances given in
meters, never raises the alert, whatever the severities and however small the
numbers: `checkHighSeverityAlerts` leaves the page as it was. -/
theorem checkHighSeverityAlerts_ignores_meters (page : IndexPage)
    (incidents : List NearbyIncident)
    (h : ∀ inc ∈ incidents, stringIncludes inc.distance "km" = false) :
    checkHighSeverityAlerts page incidents = page := by
  have hnil : incidents.filter isHighSeverityNearby = [] := by
    rw [List.filter_eq_nil_iff]
    intro inc hmem
    simp [isHighSeverityNearby, h inc hmem]
  simp [checkHighSeverityAlerts, hnil]

/-- Witness for C10: critical incidents at `500m` and `50m` leave a dismissed
alert dismissed. -/
theorem checkHighSeverityAlerts_ignores_meters_witness :
    checkHighSeverityAlerts sampleDismissed
      [{ severity := JsVal.str "critical", distance := "500m" },
       { severity := JsVal.str "serious", distance := "50m" }] = sampleDismissed :=
  checkHighSeverityAlerts_ignores_meters sampleDismissed
    [{ severity := JsVal.str "critical", distance := "500m" },
     { severity := JsVal.str "serious", distance := "50m" }] (by decide)

/-! ## Lemmas: object writes -/

theorem get_set (o : JsObject) (k k' : String) (v : JsVal) :
    (o.set k v).get k' = if k = k' then v else o.get k' := by
  unfold JsObject.get JsObject.set
  rw [getProp_setProp]
  by_cases h : k = k' <;> simp [h]

theorem deref_write (s : Responder) (r x : Ref) (k : String) (v : JsVal) :
    (s.write r k v).deref x
      = if x = r ∧ r < s.heap.length then (s.deref r).set k v else s.deref x := by
  unfold Responder.write Responder.deref
  simp only [List.getD_eq_getElem?_getD, List.getElem?_set]
  by_cases hx : r = x
  · subst hx
    by_cases hlt : r < s.heap.length
    · simp [hlt]
    · have hnone : s.heap[r]? = none := List.getElem?_eq_none (Nat.le_of_not_lt hlt)
      simp [hlt, hnone]
  · have hx2 : ¬ x = r := fun h => hx h.symm
    simp [hx, hx2]

theorem deref_write_of_ne (s : Responder) (r x : Ref) (k : String) (v : JsVal) (h : x ≠ r) :
    (s.write r k v).deref x = s.deref x := by
  rw [deref_write]
  simp [h]

theorem deref_write_self (s : Responder) (r : Ref) (k : String) (v : JsVal)
    (h : r < s.heap.length) :
    (s.write r k v).deref r = (s.deref r).set k v := by
  rw [deref_write]
  simp [h]

theorem get_deref_write_of_ne (s : Responder) (r x : Ref) (k k' : String) (v : JsVal)
    (h : k ≠ k') :
    ((s.write r k v).deref x).get k' = (s.deref x).get k' := by
  rw [deref_write]
  by_cases hc : x = r ∧ r < s.heap.length
  · rw [if_pos hc, get_set, if_neg h, hc.1]
  · rw [if_neg hc]

theorem write_length (s : Responder) (r : Ref) (k : String) (v : JsVal) :
    (s.write r k v).heap.length = s.heap.length := by
  simp [Responder.write]

theorem deref_renderIncidents (s : Responder) (x : Ref) :
    (renderIncidents s).deref x = s.deref x := by
  unfold Responder.deref
  rw [renderIncidents_heap]

theorem findIncident_some (s : Responder) (incidentId : JsVal) (r : Ref)
    (h : findIncident s incidentId = some r) :
    r ∈ s.incidents ∧ (s.deref r).get "id" = incidentId := by
  unfold findIncident at h
  exact ⟨List.mem_of_find?_eq_some h, by simpa using List.find?_some h⟩

theorem findIncident_isSome (s : Responder) (incidentId : JsVal)
    (h : ∃ r ∈ s.incidents, (s.deref r).get "id" = incidentId) :
    ∃ r, findIncident s incidentId = some r := by
  obtain ⟨r, hmem, hid⟩ := h
  have : (findIncident s incidentId).isSome := by
    unfold findIncident
    rw [List.find?_isSome]
    exact ⟨r, hmem, by simpa using hid⟩
  exact Option.isSome_iff_exists.mp this

/-! ## Lemmas: the store invariant -/

theorem consistent_of_same_store (s t : Responder) (hheap : t.heap = s.heap)
    (hinc : t.incidents.Perm s.incidents)
    (hsnap : t.lastIncidentSnapshot = s.lastIncidentSnapshot) (h : s.Consistent) :
    t.Consistent := by
  have hderef : ∀ x, t.deref x = s.deref x := by
    intro x
    unfold Responder.deref
    rw [hheap]
  obtain ⟨h1, h2, h3⟩ := h
  refine ⟨?_, ?_, ?_⟩
  · intro r hr
    rw [hheap]
    exact h1 r (hinc.mem_iff.mp hr)
  · intro k r hk
    rw [hsnap] at hk
    obtain ⟨hm, hkey⟩ := h2 k r hk
    exact ⟨hinc.mem_iff.mpr hm, by rw [hderef]; exact hkey⟩
  · intro r hr
    rw [hsnap, hderef]
    exact h3 r (hinc.mem_iff.mp hr)

theorem consistent_renderIncidents (s : Responder) (h : s.Consistent) :
    (renderIncidents s).Consistent :=
  consistent_of_same_store s _ (renderIncidents_heap s) (renderIncidents_incidents_perm s)
    (renderIncidents_snapshot s) h

theorem idKey_deref_write (s : Responder) (r x : Ref) (k : String) (v : JsVal)
    (hk : k ≠ "id") :
    idKey ((s.write r k v).deref x) = idKey (s.deref x) := by
  unfold idKey
  rw [get_deref_write_of_ne s r x k "id" v hk]

theorem consistent_write (s : Responder) (r : Ref) (k : String) (v : JsVal) (hk : k ≠ "id")
    (h : s.Consistent) : (s.write r k v).Consistent := by
  obtain ⟨h1, h2, h3⟩ := h
  refine ⟨?_, ?_, ?_⟩
  · intro x hx
    rw [write_length]
    exact h1 x hx
  · intro key x hx
    obtain ⟨hm, hkey⟩ := h2 key x hx
    exact ⟨hm, by rw [idKey_deref_write s r x k v hk]; exact hkey⟩
  · intro x hx
    rw [idKey_deref_write s r x k v hk]
    exact h3 x hx

theorem snapshot_deref_replaceStore (s : Responder) (new : List JsObject) (k : String) :
    (getProp (replaceStore s new).lastIncidentSnapshot k).map (replaceStore s new).deref
      = new.reverse.find? (fun inc => decide (idKey inc = k)) := by
  have hsnap : (replaceStore s new).lastIncidentSnapshot
      = buildSnapshot (new.zip (freshRefs s new)) := rfl
  have hderef : (replaceStore s new).deref = fun r => (s.heap ++ new).getD r [] := rfl
  rw [hsnap, hderef, getProp_buildSnapshot]
  have hagree : ∀ e ∈ (new.zip (freshRefs s new)).reverse,
      (fun r => (s.heap ++ new).getD r []) e.2 = e.1 := by
    intro e he
    exact getD_of_mem_zip_range s.heap new e (List.mem_reverse.mp he)
  have h := find_map_of_agree (fun r => (s.heap ++ new).getD r [])
    (fun inc => decide (idKey inc = k)) _ hagree
  rw [h, List.map_reverse]
  congr 2
  exact List.map_fst_zip _ _ (by simp [freshRefs])

theorem consistent_replaceStore (s : Responder) (new : List JsObject) :
    (replaceStore s new).Consistent := by
  have hinc : (replaceStore s new).incidents = freshRefs s new := rfl
  have hmap : (freshRefs s new).map (replaceStore s new).deref = new :=
    map_getD_range s.heap new
  refine ⟨?_, ?_, ?_⟩
  · intro r hr
    rw [hinc] at hr
    have hlen : (replaceStore s new).heap.length = s.heap.length + new.length := by
      simp [replaceStore]
    rw [hlen]
    exact (List.mem_range'_1.mp hr).2
  · intro k r hk
    refine ⟨snapshot_ref_mem_freshRefs s new k r hk, ?_⟩
    have h := snapshot_deref_replaceStore s new k
    rw [hk] at h
    have hp := List.find?_some h.symm
    simpa using hp
  · intro r hr
    rw [hinc] at hr
    have hmem : (replaceStore s new).deref r ∈ new := by
      have := List.mem_map_of_mem (replaceStore s new).deref hr
      rwa [hmap] at this
    have h := congrArg Option.isSome
      (snapshot_deref_replaceStore s new (idKey ((replaceStore s new).deref r)))
    rw [Option.isSome_map'] at h
    rw [h, List.find?_isSome]
    exact ⟨_, List.mem_reverse.mpr hmem, by simp⟩

theorem consistent_loadIncidentsComplete (s : Responder) (res : FetchResult)
    (h : s.Consistent) : (loadIncidentsComplete s res).Consistent := by
  cases res with
  | failure => exact consistent_of_same_store s _ rfl (List.Perm.refl _) rfl h
  | success data =>
    have hbase := consistent_replaceStore s (data.getD [])
    have hstats : ({ replaceStore s (data.getD []) with
        stats := updateStats (data.getD []) } : Responder).Consistent :=
      consistent_of_same_store _ _ rfl (List.Perm.refl _) rfl hbase
    simp only [loadIncidentsComplete]
    split
    · exact consistent_of_same_store _ _ rfl (List.Perm.refl _) rfl
        (consistent_renderIncidents _ hstats)
    · exact consistent_of_same_store _ _ rfl (List.Perm.refl _) rfl hstats

theorem consistent_applyMutation (s : Responder) (m : Mutation) (h : s.Consistent) :
    (applyMutation s m).Consistent := by
  cases m with
  | claimIncident incidentId res =>
    cases res with
    | failure => exact h
    | success body =>
      simp only [applyMutation, claimIncident]
      apply consistent_renderIncidents
      split
      · exact consistent_write s _ _ _ (by decide) h
      · exact h
  | updateIncidentStatus incidentId newStatus now ok =>
    cases ok with
    | false => exact h
    | true =>
      simp only [applyMutation, updateIncidentStatus, if_true]
      apply consistent_renderIncidents
      split
      · exact consistent_write _ _ _ _ (by decide) (consistent_write s _ _ _ (by decide) h)
      · exact h
  | updateIncidentPriority incidentId priority res =>
    cases res with
    | failure => exact h
    | success body =>
      simp only [applyMutation, updateIncidentPriority]
      apply consistent_renderIncidents
      split
      · exact consistent_write s _ _ _ (by decide) h
      · exact h
  | sendNote incidentId message eta res => exact h

theorem reachable_consistent (s : Responder) (h : Reachable s) : s.Consistent := by
  induction h with
  | initial =>
    refine ⟨?_, ?_, ?_⟩
    · intro r hr
      simp [Responder.initial] at hr
    · intro k r hk
      simp [Responder.initial, getProp] at hk
    · intro r hr
      simp [Responder.initial] at hr
  | beginLoad _ ih => exact consistent_of_same_store _ _ rfl (List.Perm.refl _) rfl ih
  | completeLoad res _ ih => exact consistent_loadIncidentsComplete _ res ih
  | changeFilters severity status _ ih =>
    exact consistent_renderIncidents _
      (consistent_of_same_store _ _ rfl (List.Perm.refl _) rfl ih)
  | mutate m _ ih => exact consistent_applyMutation _ m ih

theorem snapshot_self_of_distinct (s : Responder) (h : s.Consistent) (hd : s.DistinctIds)
    (r : Ref) (hr : r ∈ s.incidents) :
    getProp s.lastIncidentSnapshot (idKey (s.deref r)) = some r := by
  obtain ⟨_, h2, h3⟩ := h
  obtain ⟨x, hx⟩ := Option.isSome_iff_exists.mp (h3 r hr)
  obtain ⟨hxm, hxk⟩ := h2 _ x hx
  have : x = r := List.inj_on_of_nodup_map hd hxm hr hxk
  rw [hx, this]

/-! ## Lemmas: the effect of a write followed by a render -/

theorem write_render_frame (s : Responder) (r : Ref) (k : String) (v : JsVal)
    (hr : r < s.heap.length) :
    ((renderIncidents (s.write r k v)).deref r).get k = v ∧
    (∀ k', k' ≠ k →
      ((renderIncidents (s.write r k v)).deref r).get k' = (s.deref r).get k') ∧
    (∀ x, x ≠ r → (renderIncidents (s.write r k v)).deref x = s.deref x) ∧
    (renderIncidents (s.write r k v)).incidents.Perm s.incidents ∧
    (renderIncidents (s.write r k v)).lastIncidentSnapshot = s.lastIncidentSnapshot := by
  refine ⟨?_, ?_, ?_, ?_, ?_⟩
  · rw [deref_renderIncidents, deref_write_self s r k v hr, get_set]
    simp
  · intro k' hk'
    rw [deref_renderIncidents]
    exact get_deref_write_of_ne s r r k k' v (Ne.symm hk')
  · intro x hx
    rw [deref_renderIncidents]
    exact deref_write_of_ne s r x k v hx
  · exact renderIncidents_incidents_perm _
  · exact renderIncidents_snapshot _

theorem findIncident_first (s : Responder) (incidentId : JsVal) (r : Ref)
    (h : findIncident s incidentId = some r) :
    ∃ pre post, s.incidents = pre ++ r :: post ∧
      (∀ x ∈ pre, (s.deref x).get "id" ≠ incidentId) := by
  unfold findIncident at h
  obtain ⟨_, pre, post, hsplit, hpre⟩ := List.find?_eq_some.mp h
  refine ⟨pre, post, hsplit, ?_⟩
  intro x hx
  simpa using hpre x hx

theorem sampleStore_reachable : Reachable sampleStore :=
  Reachable.completeLoad
    (FetchResult.success (some [sampleRecord, mkIncident 8 "minor" "unverified"]))
    (Reachable.beginLoad Reachable.initial)

/-! ## Standing alert (C11) -/

/-- C11: once `checkHighSeverityAlerts` has met a qualifying incident the alert
is shown and stays shown across any later `checkHighSeverityAlerts` calls,
whatever their lists hold; `dismissAlert` then hides it; and a call on a list
with a qualifying incident after the dismissal shows it again. -/
theorem alert_stays_until_dismissed (page : IndexPage) (first : List NearbyIncident)
    (later : List (List NearbyIncident))
    (h : ∃ inc ∈ first, isHighSeverityNearby inc = true) :
    (checkHighSeverityAlerts page first).emergencyAlertDisplay = "flex" ∧
    (later.foldl checkHighSeverityAlerts
      (checkHighSeverityAlerts page first)).emergencyAlertDisplay = "flex" ∧
    (dismissAlert (later.foldl checkHighSeverityAlerts
      (checkHighSeverityAlerts page first))).emergencyAlertDisplay = "none" ∧
    (checkHighSeverityAlerts (dismissAlert (later.foldl checkHighSeverityAlerts
      (checkHighSeverityAlerts page first))) first).emergencyAlertDisplay = "flex" := by
  have hraise : ∀ p : IndexPage, (checkHighSeverityAlerts p first).emergencyAlertDisplay
      = "flex" := by
    intro p
    obtain ⟨inc, hmem, hq⟩ := h
    have hlen : (first.filter isHighSeverityNearby).length > 0 :=
      List.length_pos_iff_exists_mem.mpr ⟨inc, List.mem_filter.mpr ⟨hmem, hq⟩⟩
    simp only [checkHighSeverityAlerts, hlen, if_true, showEmergencyAlert]
  have hkeep : ∀ (p : IndexPage) (l : List NearbyIncident),
      p.emergencyAlertDisplay = "flex" →
      (checkHighSeverityAlerts p l).emergencyAlertDisplay = "flex" := by
    intro p l hp
    unfold checkHighSeverityAlerts
    by_cases hlen : (l.filter isHighSeverityNearby).length > 0
    · simp only [hlen, if_true, showEmergencyAlert]
    · simp only [hlen, if_false, hp]
  have hfold : ∀ (ls : List (List NearbyIncident)) (p : IndexPage),
      p.emergencyAlertDisplay = "flex" →
      (ls.foldl checkHighSeverityAlerts p).emergencyAlertDisplay = "flex" := by
    intro ls
    induction ls with
    | nil => intro p hp; exact hp
    | cons l t ih => intro p hp; exact ih _ (hkeep p l hp)
  exact ⟨hraise page, hfold later _ (hraise page), rfl, hraise _⟩

/-- Witness for C11: a critical incident at `0.5km` raises the alert from a
dismissed page, and two later calls without a qualifying incident keep it. -/
theorem alert_stays_until_dismissed_witness :
    (List.foldl checkHighSeverityAlerts
      (checkHighSeverityAlerts sampleDismissed
        [{ severity := JsVal.str "critical", distance := "0.5km" }])
      [[], [{ severity := JsVal.str "minor", distance := "0.1km" }]]).emergencyAlertDisplay
      = "flex" :=
  (alert_stays_until_dismissed sampleDismissed
    [{ severity := JsVal.str "critical", distance := "0.5km" }]
    [[], [{ severity := JsVal.str "minor", distance := "0.1km" }]]
    ⟨_, List.mem_singleton.mpr rfl, by decide⟩).2.1

/-! ## Failed calls (C12) -/

/-- C12: when the remote call fails, `loadIncidents`, `claimIncident`,
`updateIncidentStatus` and `updateIncidentPriority` leave the held collection,
the snapshot mapping and every object of the store as they were; a failed
claim therefore leaves every `claimed_by` unchanged. -/
theorem failed_calls_leave_store (s : Responder) (incidentId value : JsVal) (now : String) :
    (loadIncidents s FetchResult.failure).incidents = s.incidents ∧
    (loadIncidents s FetchResult.failure).lastIncidentSnapshot = s.lastIncidentSnapshot ∧
    (loadIncidents s FetchResult.failure).heap = s.heap ∧
    claimIncident s incidentId RemoteResult.failure = s ∧
    updateIncidentStatus s incidentId value now false = s ∧
    updateIncidentPriority s incidentId value RemoteResult.failure = s ∧
    (∀ r, ((claimIncident s incidentId RemoteResult.failure).deref r).get "claimed_by"
      = (s.deref r).get "claimed_by") :=
  ⟨rfl, rfl, rfl, rfl, rfl, rfl, fun _ => rfl⟩

/-! ## Priority update (C13) -/

/-- C13: in a reachable state that holds an incident with the given id, a
successful `updateIncidentPriority(id, priority)` sets `responder_priority` of
the first held incident with that id to `priority`; every other field of that
incident (severity, ai_severity, status, claimed_by, ...) and every other
object keep their values, the held collection holds the same incidents and
the snapshot mapping is the same. -/
theorem updateIncidentPriority_sets_only_priority (s : Responder) (hreach : Reachable s)
    (incidentId priority : JsVal) (body : JsObject)
    (hfound : ∃ r ∈ s.incidents, (s.deref r).get "id" = incidentId) :
    ∃ r pre post, s.incidents = pre ++ r :: post ∧
      (∀ x ∈ pre, (s.deref x).get "id" ≠ incidentId) ∧
      (s.deref r).get "id" = incidentId ∧
      ((updateIncidentPriority s incidentId priority (RemoteResult.success body)).deref r).get
        "responder_priority" = priority ∧
      (∀ k, k ≠ "responder_priority" →
        ((updateIncidentPriority s incidentId priority (RemoteResult.success body)).deref r).get k
          = (s.deref r).get k) ∧
      (∀ x, x ≠ r →
        (updateIncidentPriority s incidentId priority (RemoteResult.success body)).deref x
          = s.deref x) ∧
      (updateIncidentPriority s incidentId priority (RemoteResult.success body)).incidents.Perm
        s.incidents ∧
      (updateIncidentPriority s incidentId priority
        (RemoteResult.success body)).lastIncidentSnapshot = s.lastIncidentSnapshot := by
  obtain ⟨r, hr⟩ := findIncident_isSome s incidentId hfound
  obtain ⟨hmem, hid⟩ := findIncident_some s incidentId r hr
  obtain ⟨pre, post, hsplit, hpre⟩ := findIncident_first s incidentId r hr
  have hvalid : r < s.heap.length := (reachable_consistent s hreach).1 r hmem
  have hres : updateIncidentPriority s incidentId priority (RemoteResult.success body)
      = renderIncidents (s.write r "responder_priority" priority) := by
    simp only [updateIncidentPriority, hr]
  rw [hres]
  exact ⟨r, pre, post, hsplit, hpre, hid,
    write_render_frame s r "responder_priority" priority hvalid⟩

/-- Witness for C13: setting the priority of incident 7 to `high` leaves its
severity, its status and its claim as they were. -/
theorem updateIncidentPriority_sets_only_priority_witness :
    ∃ r, ((updateIncidentPriority sampleStore (JsVal.num 7) (JsVal.str "high")
        (RemoteResult.success [])).deref r).get "responder_priority" = JsVal.str "high" ∧
      ((updateIncidentPriority sampleStore (JsVal.num 7) (JsVal.str "high")
        (RemoteResult.success [])).deref r).get "severity" = (sampleStore.deref r).get "severity" ∧
      (sampleStore.deref r).get "id" = JsVal.num 7 := by
  obtain ⟨r, _, _, _, _, hid, hset, hkeep, _⟩ :=
    updateIncidentPriority_sets_only_priority sampleStore sampleStore_reachable (JsVal.num 7)
      (JsVal.str "high") [] ⟨0, by decide, by decide⟩
  exact ⟨r, hset, hkeep "severity" (by decide), hid⟩

/-! ## Lemmas: a poll that returns the held state -/

theorem distinctIds_of_same_keys (s t : Responder) (hinc : t.incidents.Perm s.incidents)
    (hkey : ∀ x, idKey (t.deref x) = idKey (s.deref x)) (h : s.DistinctIds) :
    t.DistinctIds := by
  unfold Responder.DistinctIds at h ⊢
  have hfun : (fun r => idKey (t.deref r)) = fun r => idKey (s.deref r) := funext hkey
  rw [hfun]
  exact (hinc.map _).nodup_iff.mpr h

theorem poll_of_held_state_unchanged (s : Responder) (hc : s.Consistent) (hd : s.DistinctIds) :
    detectChanges s (s.incidents.map s.deref) = false := by
  rw [detectChanges_eq_any]
  apply Bool.eq_false_iff.mpr
  intro hany
  obtain ⟨inc, hmem, hdiff⟩ := List.any_eq_true.mp hany
  obtain ⟨x, hx, rfl⟩ := List.mem_map.mp hmem
  have : differs s (s.deref x) = false :=
    (differs_eq_false_iff s _).mpr ⟨x, snapshot_self_of_distinct s hc hd x hx, rfl⟩
  rw [this] at hdiff
  exact Bool.noConfusion hdiff

/-! ## Claim (C14) -/

/-- C14: in a reachable state whose held collection has distinct ids and holds
an incident with the given id, a successful `claimIncident(id)` writes the
`claimed_by` of the response through to the store: the held record has it,
the snapshot entry under the id is that same record, every other field of the
record and every other object are unchanged, and a poll that returns the held
state as it now is reports no change. -/
theorem claimIncident_writes_through (s : Responder) (hreach : Reachable s)
    (hdistinct : s.DistinctIds) (incidentId : JsVal) (body : JsObject)
    (hfound : ∃ r ∈ s.incidents, (s.deref r).get "id" = incidentId) :
    ∃ r ∈ (claimIncident s incidentId (RemoteResult.success body)).incidents,
      r ∈ s.incidents ∧
      (s.deref r).get "id" = incidentId ∧
      ((claimIncident s incidentId (RemoteResult.success body)).deref r).get "claimed_by"
        = body.get "claimed_by" ∧
      getProp (claimIncident s incidentId (RemoteResult.success body)).lastIncidentSnapshot
        (toPropertyKey incidentId) = some r ∧
      (∀ k, k ≠ "claimed_by" →
        ((claimIncident s incidentId (RemoteResult.success body)).deref r).get k
          = (s.deref r).get k) ∧
      (∀ x, x ≠ r →
        (claimIncident s incidentId (RemoteResult.success body)).deref x = s.deref x) ∧
      detectChanges (claimIncident s incidentId (RemoteResult.success body))
        ((claimIncident s incidentId (RemoteResult.success body)).incidents.map
          (claimIncident s incidentId (RemoteResult.success body)).deref) = false := by
  obtain ⟨r, hr⟩ := findIncident_isSome s incidentId hfound
  obtain ⟨hmem, hid⟩ := findIncident_some s incidentId r hr
  have hcons := reachable_consistent s hreach
  have hvalid : r < s.heap.length := hcons.1 r hmem
  have hres : claimIncident s incidentId (RemoteResult.success body)
      = renderIncidents (s.write r "claimed_by" (body.get "claimed_by")) := by
    simp only [claimIncident, hr]
  have hreach2 : Reachable (claimIncident s incidentId (RemoteResult.success body)) :=
    Reachable.mutate (Mutation.claimIncident incidentId (RemoteResult.success body)) hreach
  have hcons2 := reachable_consistent _ hreach2
  rw [hres] at hcons2 ⊢
  obtain ⟨hset, hkeep, hothers, hperm, hsnap⟩ :=
    write_render_frame s r "claimed_by" (body.get "claimed_by") hvalid
  have hkeys : ∀ x, idKey ((renderIncidents
      (s.write r "claimed_by" (body.get "claimed_by"))).deref x) = idKey (s.deref x) := by
    intro x
    rw [deref_renderIncidents]
    exact idKey_deref_write s r x "claimed_by" _ (by decide)
  have hd2 := distinctIds_of_same_keys s _ hperm hkeys hdistinct
  refine ⟨r, hperm.mem_iff.mpr hmem, hmem, hid, hset, ?_, hkeep, hothers,
    poll_of_held_state_unchanged _ hcons2 hd2⟩
  rw [hsnap]
  have hself := snapshot_self_of_distinct s hcons hdistinct r hmem
  unfold idKey at hself
  rw [hid] at hself
  exact hself

/-- Witness for C14: claiming incident 8 with the answer `claimed_by: "bob"`
leaves a store whose next identical poll reports no change. -/
theorem claimIncident_writes_through_witness :
    ∃ r, ((claimIncident sampleStore (JsVal.num 8)
        (RemoteResult.success [("claimed_by", JsVal.str "bob")])).deref r).get "claimed_by"
        = JsVal.str "bob" ∧
      getProp (claimIncident sampleStore (JsVal.num 8)
        (RemoteResult.success [("claimed_by", JsVal.str "bob")])).lastIncidentSnapshot "8"
        = some r := by
  obtain ⟨r, _, _, _, hset, hsnap, _⟩ :=
    claimIncident_writes_through sampleStore sampleStore_reachable
      (by unfold Responder.DistinctIds; decide) (JsVal.num 8)
      [("claimed_by", JsVal.str "bob")] ⟨1, by decide, by decide⟩
  exact ⟨r, hset, hsnap⟩

/-! ## Status update (C15) -/

/-- C15 as stated fails: a successful `updateIncidentStatus` also overwrites
`updated_at` of the record with the current time. -/
theorem updateIncidentStatus_overwrites_updated_at :
    (sampleOpenStore.deref 0).get "updated_at" = JsVal.str "2024-01-01T00:00:00.000Z" ∧
    ((updateIncidentStatus sampleOpenStore (JsVal.num 9) (JsVal.str "in_progress")
      "2024-06-01T12:00:00.000Z" true).deref 0).get "updated_at"
      = JsVal.str "2024-06-01T12:00:00.000Z" := by
  decide

/-- C15, amended: in a reachable state that holds an incident with the given
id, a successful `updateIncidentStatus(id, newStatus)` sets `status` of the
first held incident with that id to `newStatus` and its `updated_at` to the
current time; every other field of that incident and every other object keep
their values. -/
theorem updateIncidentStatus_merges_status_and_stamp (s : Responder) (hreach : Reachable s)
    (incidentId newStatus : JsVal) (now : String)
    (hfound : ∃ r ∈ s.incidents, (s.deref r).get "id" = incidentId) :
    ∃ r pre post, s.incidents = pre ++ r :: post ∧
      (∀ x ∈ pre, (s.deref x).get "id" ≠ incidentId) ∧
      (s.deref r).get "id" = incidentId ∧
      ((updateIncidentStatus s incidentId newStatus now true).deref r).get "status"
        = newStatus ∧
      ((updateIncidentStatus s incidentId newStatus now true).deref r).get "updated_at"
        = JsVal.str now ∧
      (∀ k, k ≠ "status" → k ≠ "updated_at" →
        ((updateIncidentStatus s incidentId newStatus now true).deref r).get k
          = (s.deref r).get k) ∧
      (∀ x, x ≠ r → (updateIncidentStatus s incidentId newStatus now true).deref x
        = s.deref x) := by
  obtain ⟨r, hr⟩ := findIncident_isSome s incidentId hfound
  obtain ⟨hmem, hid⟩ := findIncident_some s incidentId r hr
  obtain ⟨pre, post, hsplit, hpre⟩ := findIncident_first s incidentId r hr
  have hvalid : r < s.heap.length := (reachable_consistent s hreach).1 r hmem
  have hvalid2 : r < (s.write r "status" newStatus).heap.length := by
    rw [write_length]
    exact hvalid
  have hres : updateIncidentStatus s incidentId newStatus now true
      = renderIncidents ((s.write r "status" newStatus).write r "updated_at" (JsVal.str now)) := by
    simp only [updateIncidentStatus, hr, if_true]
  rw [hres]
  refine ⟨r, pre, post, hsplit, hpre, hid, ?_, ?_, ?_, ?_⟩
  · rw [deref_renderIncidents, get_deref_write_of_ne _ r r "updated_at" "status" _ (by decide),
      deref_write_self s r _ _ hvalid, get_set]
    simp
  · rw [deref_renderIncidents, deref_write_self _ r _ _ hvalid2, get_set]
    simp
  · intro k hk1 hk2
    rw [deref_renderIncidents, get_deref_write_of_ne _ r r "updated_at" k _ (Ne.symm hk2),
      get_deref_write_of_ne s r r "status" k _ (Ne.symm hk1)]
  · intro x hx
    rw [deref_renderIncidents, deref_write_of_ne _ r x _ _ hx, deref_write_of_ne s r x _ _ hx]

/-- Witness for C15, amended: moving incident 9 to `in_progress` keeps its
severity. -/
theorem updateIncidentStatus_merges_status_and_stamp_witness :
    ∃ r, ((updateIncidentStatus sampleOpenStore (JsVal.num 9) (JsVal.str "in_progress")
        "2024-06-01T12:00:00.000Z" true).deref r).get "status" = JsVal.str "in_progress" ∧
      ((updateIncidentStatus sampleOpenStore (JsVal.num 9) (JsVal.str "in_progress")
        "2024-06-01T12:00:00.000Z" true).deref r).get "severity"
        = (sampleOpenStore.deref r).get "severity" := by
  obtain ⟨r, _, _, _, _, _, hstatus, _, hkeep, _⟩ :=
    updateIncidentStatus_merges_status_and_stamp sampleOpenStore
      (Reachable.completeLoad (FetchResult.success (some [sampleOpenRecord]))
        (Reachable.beginLoad Reachable.initial)) (JsVal.num 9)
      (JsVal.str "in_progress") "2024-06-01T12:00:00.000Z" ⟨0, by decide, by decide⟩
  exact ⟨r, hstatus, hkeep "severity" (by decide) (by decide)⟩

/-! ## Lemmas: which mutation writes which field -/

theorem claimed_by_after_mutation (s : Responder) (m : Mutation) (x : Ref) :
    ((applyMutation s m).deref x).get "claimed_by" = (s.deref x).get "claimed_by" ∨
    ∃ incidentId body, m = Mutation.claimIncident incidentId (RemoteResult.success body) ∧
      ((applyMutation s m).deref x).get "claimed_by" = body.get "claimed_by" := by
  cases m with
  | claimIncident incidentId res =>
    cases res with
    | failure => exact Or.inl rfl
    | success body =>
      simp only [applyMutation, claimIncident]
      rw [deref_renderIncidents]
      cases hfind : findIncident s incidentId with
      | none => exact Or.inl rfl
      | some r =>
        simp only []
        by_cases hc : x = r ∧ r < s.heap.length
        · refine Or.inr ⟨incidentId, body, rfl, ?_⟩
          rw [deref_write, if_pos hc, get_set]
          simp
        · refine Or.inl ?_
          rw [deref_write, if_neg hc]
  | updateIncidentStatus incidentId newStatus now ok =>
    refine Or.inl ?_
    cases ok with
    | false => rfl
    | true =>
      simp only [applyMutation, updateIncidentStatus, if_true]
      rw [deref_renderIncidents]
      cases hfind : findIncident s incidentId with
      | none => rfl
      | some r =>
        simp only []
        rw [get_deref_write_of_ne _ r x "updated_at" "claimed_by" _ (by decide),
          get_deref_write_of_ne s r x "status" "claimed_by" _ (by decide)]
  | updateIncidentPriority incidentId priority res =>
    refine Or.inl ?_
    cases res with
    | failure => rfl
    | success body =>
      simp only [applyMutation, updateIncidentPriority]
      rw [deref_renderIncidents]
      cases hfind : findIncident s incidentId with
      | none => rfl
      | some r =>
        simp only []
        rw [get_deref_write_of_ne s r x "responder_priority" "claimed_by" _ (by decide)]
  | sendNote incidentId message eta res => exact Or.inl rfl

theorem status_after_mutation (s : Responder) (m : Mutation) (x : Ref) :
    ((applyMutation s m).deref x).get "status" = (s.deref x).get "status" ∨
    ∃ incidentId newStatus now,
      m = Mutation.updateIncidentStatus incidentId newStatus now true ∧
      ((applyMutation s m).deref x).get "status" = newStatus := by
  cases m with
  | claimIncident incidentId res =>
    refine Or.inl ?_
    cases res with
    | failure => rfl
    | success body =>
      simp only [applyMutation, claimIncident]
      rw [deref_renderIncidents]
      cases hfind : findIncident s incidentId with
      | none => rfl
      | some r =>
        simp only []
        rw [get_deref_write_of_ne s r x "claimed_by" "status" _ (by decide)]
  | updateIncidentStatus incidentId newStatus now ok =>
    cases ok with
    | false => exact Or.inl rfl
    | true =>
      simp only [applyMutation, updateIncidentStatus, if_true]
      rw [deref_renderIncidents]
      cases hfind : findIncident s incidentId with
      | none => exact Or.inl rfl
      | some r =>
        simp only []
        rw [get_deref_write_of_ne _ r x "updated_at" "status" _ (by decide)]
        by_cases hc : x = r ∧ r < s.heap.length
        · refine Or.inr ⟨incidentId, newStatus, now, rfl, ?_⟩
          rw [deref_write, if_pos hc, get_set]
          simp
        · refine Or.inl ?_
          rw [deref_write, if_neg hc]
  | updateIncidentPriority incidentId priority res =>
    refine Or.inl ?_
    cases res with
    | failure => rfl
    | success body =>
      simp only [applyMutation, updateIncidentPriority]
      rw [deref_renderIncidents]
      cases hfind : findIncident s incidentId with
      | none => rfl
      | some r =>
        simp only []
        rw [get_deref_write_of_ne s r x "responder_priority" "status" _ (by decide)]
  | sendNote incidentId message eta res => exact Or.inl rfl

/-! ## Claims and resolved incidents under mutation (C16, C17) -/

/-- C16 as stated fails: a successful `claimIncident` stores whatever
`claimed_by` the response carries, so the answer `claimed_by: null` clears the
claim of an incident that was claimed. -/
theorem claimIncident_can_clear_claim :
    (sampleStore.deref 0).get "claimed_by" = JsVal.str "alice" ∧
    ((applyMutation sampleStore
      (Mutation.claimIncident (JsVal.num 7)
        (RemoteResult.success [("claimed_by", JsVal.null)]))).deref 0).get "claimed_by"
      = JsVal.null := by
  decide

/-- C16, amended: for every mutation operation and every server response in
which a successful `claimIncident` answer carries a non-null `claimed_by`, an
object whose `claimed_by` is non-null before the operation has a non-null
`claimed_by` after it. -/
theorem claim_kept_by_mutations (s : Responder) (m : Mutation) (r : Ref)
    (hresp : ∀ incidentId body,
      m = Mutation.claimIncident incidentId (RemoteResult.success body) →
      nonNull (body.get "claimed_by"))
    (h : nonNull ((s.deref r).get "claimed_by")) :
    nonNull (((applyMutation s m).deref r).get "claimed_by") := by
  rcases claimed_by_after_mutation s m r with hsame | ⟨incidentId, body, hm, hnew⟩
  · rw [hsame]
    exact h
  · rw [hnew]
    exact hresp incidentId body hm

/-- Witness for C16, amended: claiming the already claimed incident 7 with the
answer `claimed_by: "bob"` leaves it claimed. -/
theorem claim_kept_by_mutations_witness :
    nonNull (((applyMutation sampleStore
      (Mutation.claimIncident (JsVal.num 7)
        (RemoteResult.success [("claimed_by", JsVal.str "bob")]))).deref 0).get "claimed_by") :=
  claim_kept_by_mutations sampleStore
    (Mutation.claimIncident (JsVal.num 7)
      (RemoteResult.success [("claimed_by", JsVal.str "bob")])) 0
    (fun _ _ hm => by cases hm; exact ⟨by decide, by decide⟩)
    ⟨by decide, by decide⟩

/-- C17 as stated fails: a successful `updateIncidentStatus(id, 'in_progress')`
on a resolved incident sets its status to `in_progress`. -/
theorem updateIncidentStatus_can_reopen_resolved :
    (sampleStore.deref 0).get "status" = JsVal.str "resolved" ∧
    ((applyMutation sampleStore
      (Mutation.updateIncidentStatus (JsVal.num 7) (JsVal.str "in_progress")
        "2024-06-01T12:00:00.000Z" true)).deref 0).get "status"
      = JsVal.str "in_progress" := by
  decide

/-- C17, amended: for every mutation operation other than a successful
`updateIncidentStatus` whose target state is not `resolved`, an object whose
status is `resolved` before the operation has status `resolved` after it. -/
theorem resolved_kept_by_mutations (s : Responder) (m : Mutation) (r : Ref)
    (hm : ∀ incidentId newStatus now,
      m = Mutation.updateIncidentStatus incidentId newStatus now true →
      newStatus = JsVal.str "resolved")
    (h : (s.deref r).get "status" = JsVal.str "resolved") :
    ((applyMutation s m).deref r).get "status" = JsVal.str "resolved" := by
  rcases status_after_mutation s m r with hsame | ⟨incidentId, newStatus, now, hmeq, hnew⟩
  · rw [hsame]
    exact h
  · rw [hnew]
    exact hm incidentId newStatus now hmeq

/-- Witness for C17, amended: a successful `updateIncidentStatus(7, 'resolved')`
on the resolved incident 7 leaves it resolved. -/
theorem resolved_kept_by_mutations_witness :
    ((applyMutation sampleStore
      (Mutation.updateIncidentStatus (JsVal.num 7) (JsVal.str "resolved")
        "2024-06-01T12:00:00.000Z" true)).deref 0).get "status"
      = JsVal.str "resolved" :=
  resolved_kept_by_mutations sampleStore
    (Mutation.updateIncidentStatus (JsVal.num 7) (JsVal.str "resolved")
      "2024-06-01T12:00:00.000Z" true) 0
    (fun _ _ _ hm => by cases hm; rfl) (by decide)

/-! ## Note dispatch (C18) -/

/-- C18: `sendNote` leaves the engine state as it was, in particular the held
collection, the snapshot mapping and every object of the store, whether the
server answers with success or with failure or the call does not get
through. -/
theorem sendNote_leaves_store (s : Responder) (incidentId : JsVal) (message : String)
    (eta : JsVal) (res : NoteResult) :
    (sendNote s incidentId message eta res).state = s ∧
    (sendNote s incidentId message eta res).state.incidents = s.incidents ∧
    (sendNote s incidentId message eta res).state.lastIncidentSnapshot
      = s.lastIncidentSnapshot ∧
    (sendNote s incidentId message eta res).state.heap = s.heap :=
  ⟨rfl, rfl, rfl, rfl⟩

/-! ## Pollers (C19, C20) -/

/-- C19 as stated fails: after `init()` one fetch is in flight, and two ticks
that fire before it settles leave three outstanding calls, not one. -/
theorem responder_ticks_overlap :
    ResponderPoller.initial.outstanding = 1 ∧
    (responderStep (responderStep ResponderPoller.initial ResponderEvent.tick)
      ResponderEvent.tick).outstanding = 3 := by
  decide

/-- C19, amended: on the responder dashboard every tick starts a
`loadIncidents` fetch, whether or not one is in flight: a tick raises the
number of outstanding calls by one, and `n` ticks in a row raise it by `n`. -/
theorem responder_tick_always_fetches (p : ResponderPoller) (n : Nat) :
    (responderStep p ResponderEvent.tick).outstanding = p.outstanding + 1 ∧
    ((List.replicate n ResponderEvent.tick).foldl responderStep p).outstanding
      = p.outstanding + n := by
  refine ⟨rfl, ?_⟩
  induction n generalizing p with
  | zero => rfl
  | succ k ih =>
    rw [List.replicate_succ, List.foldl_cons, ih]
    simp only [responderStep]
    omega

/-- C20: on the incident page a tick that fires while `isLoading` is true
starts no fetch and changes nothing, and after any sequence of ticks and
fetch completions from the state `init()` leaves, at most one
`loadIncidentData` call is outstanding. -/
theorem page_ticks_never_overlap (events : List PageEvent) :
    (∀ p : IncidentPage, p.isLoading = true → pageStep p PageEvent.tick = p) ∧
    (events.foldl pageStep IncidentPage.initial).outstanding ≤ 1 := by
  constructor
  · intro p hp
    simp [pageStep, hp]
  · have hstep : ∀ (p : IncidentPage) (e : PageEvent),
        (p.outstanding ≤ 1 ∧ (p.isLoading = false → p.outstanding = 0)) →
        ((pageStep p e).outstanding ≤ 1 ∧
          ((pageStep p e).isLoading = false → (pageStep p e).outstanding = 0)) := by
      intro p e hinv
      obtain ⟨hle, hidle⟩ := hinv
      cases e with
      | tick =>
        cases hl : p.isLoading with
        | true =>
          have hp : pageStep p PageEvent.tick = p := by simp [pageStep, hl]
          rw [hp, hl]
          exact ⟨hle, fun h => Bool.noConfusion h⟩
        | false =>
          have h0 := hidle hl
          simp [pageStep, hl, loadIncidentDataBegin, IncidentPage.showLoading, h0]
      | settle outcome =>
        by_cases h0 : p.outstanding = 0
        · have hp : pageStep p (PageEvent.settle outcome) = p := by simp [pageStep, h0]
          rw [hp]
          exact ⟨hle, hidle⟩
        · have h1 : p.outstanding = 1 := by omega
          cases outcome <;>
            simp [pageStep, h1, loadIncidentDataComplete, IncidentPage.showError]
    have hfold : ∀ (es : List PageEvent) (p : IncidentPage),
        (p.outstanding ≤ 1 ∧ (p.isLoading = false → p.outstanding = 0)) →
        (es.foldl pageStep p).outstanding ≤ 1 := by
      intro es
      induction es with
      | nil => intro p hinv; exact hinv.1
      | cons e t ih => intro p hinv; exact ih _ (hstep p e hinv)
    exact hfold events IncidentPage.initial ⟨by decide, by decide⟩

/-! ## Views after a cycle (C21) -/

theorem loadIncidents_changed_restores_views (s : Responder) (newIncidents : List JsObject)
    (h : detectChanges s newIncidents = true) :
    (loadIncidents s (FetchResult.success (some newIncidents))).errorHidden = true ∧
    (loadIncidents s (FetchResult.success (some newIncidents))).loadingHidden = true ∧
    ((loadIncidents s (FetchResult.success (some newIncidents))).containerHidden = false ∨
     (loadIncidents s (FetchResult.success (some newIncidents))).noIncidentsHidden = false) := by
  have hd : detectChanges (showLoading s) newIncidents = true := by
    rw [detectChanges_showLoading, h]
  simp only [loadIncidents, loadIncidentsComplete, Option.getD_some, hd, if_true]
  generalize ({ replaceStore (showLoading s) newIncidents with
    stats := updateStats newIncidents } : Responder) = t
  by_cases hlen : (filteredIncidents t).length = 0 <;> simp [renderIncidents, hlen]

/-- C21 fails on the code: a failed `loadIncidents` cycle shows the error view
and hides the list, but the next successful cycle restores the list only when
its change signal is true.  When the server returns the collection that was
loaded before the failure, `showLoading()` has hidden the list, nothing is
rendered, and the cycle ends with the loading indicator shown and the list
and the no-incidents message hidden. -/
theorem loadIncidents_unchanged_retry_keeps_loading :
    (∀ s : Responder,
      (loadIncidents s FetchResult.failure).errorHidden = false ∧
      (loadIncidents s FetchResult.failure).containerHidden = true ∧
      (loadIncidents s FetchResult.failure).loadingHidden = true) ∧
    (loadIncidents Responder.initial (FetchResult.success (some samplePair))).containerHidden
      = false ∧
    sampleAfterRetry.errorHidden = true ∧
    sampleAfterRetry.loadingHidden = false ∧
    sampleAfterRetry.containerHidden = true ∧
    sampleAfterRetry.noIncidentsHidden = true := by
  refine ⟨fun s => ⟨rfl, rfl, rfl⟩, ?_, ?_, ?_, ?_, ?_⟩ <;> decide

/-! ## Status update from the details modal (C22) -/

/-- C22 fails on the code: the details modal passes the id as a string, and
`findIndex` compares with `===`.  For the held incident with the numeric id 9
the successful update from the modal finds no record and leaves its status
`verified`, while the same update from the card, which passes `incident.id`
itself, sets `in_progress`.  For an incident whose id is a string the two
calls are the same. -/
theorem modalUpdateStatus_misses_numeric_id :
    (sampleOpenStore.deref 0).get "id" = JsVal.num 9 ∧
    ((modalUpdateStatus sampleOpenStore sampleOpenRecord "in_progress"
      "2024-06-01T12:00:00.000Z" true).deref 0).get "status" = JsVal.str "verified" ∧
    ((updateIncidentStatus sampleOpenStore (sampleOpenRecord.get "id") (JsVal.str "in_progress")
      "2024-06-01T12:00:00.000Z" true).deref 0).get "status" = JsVal.str "in_progress" ∧
    (∀ (s : Responder) (incident : JsObject) (id newStatus now : String) (ok : Bool),
      incident.get "id" = JsVal.str id →
      modalUpdateStatus s incident newStatus now ok
        = updateIncidentStatus s (incident.get "id") (JsVal.str newStatus) now ok) := by
  refine ⟨by decide, by decide, by decide, ?_⟩
  intro s incident id newStatus now ok hid
  simp only [modalUpdateStatus, hid, toPropertyKey]

/-! ## Repeated poll (C23) -/

theorem differs_after_load_false (s : Responder) (previous : List JsObject) (n : JsObject)
    (hprev : ∀ a ∈ previous, ∀ b ∈ previous,
      idKey a = idKey b → trackedFields a = trackedFields b)
    (hn : ∃ p ∈ previous, idKey n = idKey p ∧ trackedFields n = trackedFields p) :
    differs (loadIncidents s (FetchResult.success (some previous))) n = false := by
  obtain ⟨p, hp, hkey, htracked⟩ := hn
  have hsnap := snapshot_deref_after_load s previous (idKey n)
  have hsome : (previous.reverse.find? (fun inc => decide (idKey inc = idKey n))).isSome := by
    rw [List.find?_isSome]
    exact ⟨p, List.mem_reverse.mpr hp, by simp [hkey]⟩
  obtain ⟨q, hq⟩ := Option.isSome_iff_exists.mp hsome
  rw [hq] at hsnap
  obtain ⟨r, hr, hderef⟩ := Option.map_eq_some'.mp hsnap
  have hqmem : q ∈ previous := List.mem_reverse.mp (List.mem_of_find?_eq_some hq)
  have hqkey : idKey q = idKey n := by
    have := List.find?_some hq
    simpa using this
  have hagree : trackedFields q = trackedFields n := by
    rw [hprev q hqmem p hp (hqkey.trans hkey), htracked]
  exact (differs_eq_false_iff _ n).mpr ⟨r, hr, by rw [hderef, hagree]⟩

/-- C23 as stated fails: when the collection holds two records with one id and
different `status`, the second of two identical polls sets the change
signal. -/
theorem second_poll_of_duplicates_reports_change :
    detectChanges
      (loadIncidents Responder.initial (FetchResult.success (some sampleDuplicates)))
      sampleDuplicates = true := by
  decide

/-- C23, amended: for every state and every collection in which records that
share an id agree on the tracked fields (so every collection with distinct
ids), when `loadIncidents` succeeds with the collection and the next
`loadIncidents` succeeds with the same collection, the second cycle has a false
change signal and does not re-render. -/
theorem second_poll_unchanged (s : Responder) (collection : List JsObject)
    (h : ∀ a ∈ collection, ∀ b ∈ collection,
      idKey a = idKey b → trackedFields a = trackedFields b) :
    detectChanges (loadIncidents s (FetchResult.success (some collection))) collection
      = false ∧
    (loadIncidents (loadIncidents s (FetchResult.success (some collection)))
      (FetchResult.success (some collection))).container
      = (loadIncidents s (FetchResult.success (some collection))).container := by
  have hd : detectChanges (loadIncidents s (FetchResult.success (some collection))) collection
      = false := by
    rw [detectChanges_eq_any]
    apply Bool.eq_false_iff.mpr
    intro hany
    obtain ⟨n, hmem, hdiff⟩ := List.any_eq_true.mp hany
    rw [differs_after_load_false s collection n h ⟨n, hmem, rfl, rfl⟩] at hdiff
    exact Bool.noConfusion hdiff
  refine ⟨hd, ?_⟩
  have hd2 : detectChanges
      (showLoading (loadIncidents s (FetchResult.success (some collection)))) collection
      = false := by
    rw [detectChanges_showLoading, hd]
  generalize loadIncidents s (FetchResult.success (some collection)) = t at hd2 ⊢
  simp only [loadIncidents, loadIncidentsComplete, Option.getD_some, hd2]
  rfl

/-- Witness for C23, amended: polling `samplePair` twice reports no change the
second time. -/
theorem second_poll_unchanged_witness :
    detectChanges (loadIncidents Responder.initial (FetchResult.success (some samplePair)))
      samplePair = false :=
  (second_poll_unchanged Responder.initial samplePair (by decide)).1

/-! ## Statistics (C24) -/

theorem foldl_bumpCount (l : List JsObject) (c : Counts) :
    l.foldl (fun c inc => bumpCount c (toPropertyKey (inc.get "severity"))) c
      = { critical := c.critical + l.countP (fun o => decide (severityKey o = "critical"))
          serious := c.serious + l.countP (fun o => decide (severityKey o = "serious"))
          medium := c.medium + l.countP (fun o => decide (severityKey o = "medium"))
          minor := c.minor + l.countP (fun o => decide (severityKey o = "minor"))
          total := c.total + l.countP (fun o => decide (severityKey o = "total")) } := by
  induction l generalizing c with
  | nil => simp
  | cons a t ih =>
    rw [List.foldl_cons, ih]
    simp only [List.countP_cons]
    have hk : toPropertyKey (a.get "severity") = severityKey a := rfl
    rw [hk]
    by_cases h1 : severityKey a = "critical"
    · simp [bumpCount, h1]; omega
    · by_cases h2 : severityKey a = "serious"
      · simp [bumpCount, h2]; omega
      · by_cases h3 : severityKey a = "medium"
        · simp [bumpCount, h3]; omega
        · by_cases h4 : severityKey a = "minor"
          · simp [bumpCount, h4]; omega
          · by_cases h5 : severityKey a = "total"
            · simp [bumpCount, h5]; omega
            · simp [bumpCount, h1, h2, h3, h4, h5]

theorem countP_known_severity (l : List JsObject) :
    l.countP (fun o => decide (severityKey o = "critical")) +
    l.countP (fun o => decide (severityKey o = "serious")) +
    l.countP (fun o => decide (severityKey o = "medium")) +
    l.countP (fun o => decide (severityKey o = "minor")) = l.countP hasKnownSeverity := by
  induction l with
  | nil => simp
  | cons a t ih =>
    simp only [List.countP_cons, ← ih, hasKnownSeverity]
    by_cases h1 : severityKey a = "critical"
    · simp [h1]; omega
    · by_cases h2 : severityKey a = "serious"
      · simp [h2]; omega
      · by_cases h3 : severityKey a = "medium"
        · simp [h3]; omega
        · by_cases h4 : severityKey a = "minor"
          · simp [h4]; omega
          · simp [h1, h2, h3, h4]

/-- C24 fails on the code in its first part: `total` lives in the same object
as the four counters, so `counts.hasOwnProperty('total')` is true and an
incident whose severity is the string `total` raises `total` by one.  The four
counters are the numbers of incidents of that severity, `total` is the number
of incidents plus the number of incidents of severity `total`, the sum of the
four counters is at most `total`, with equality exactly when every severity is
one of the four; a single incident of severity `total` gives `total = 2`. -/
theorem updateStats_counts (incidents : List JsObject) :
    (updateStats incidents).critical
      = incidents.countP (fun o => decide (severityKey o = "critical")) ∧
    (updateStats incidents).serious
      = incidents.countP (fun o => decide (severityKey o = "serious")) ∧
    (updateStats incidents).medium
      = incidents.countP (fun o => decide (severityKey o = "medium")) ∧
    (updateStats incidents).minor
      = incidents.countP (fun o => decide (severityKey o = "minor")) ∧
    (updateStats incidents).total
      = incidents.length + incidents.countP (fun o => decide (severityKey o = "total")) ∧
    (updateStats incidents).critical + (updateStats incidents).serious +
      (updateStats incidents).medium + (updateStats incidents).minor
      ≤ (updateStats incidents).total ∧
    ((updateStats incidents).critical + (updateStats incidents).serious +
      (updateStats incidents).medium + (updateStats incidents).minor
      = (updateStats incidents).total ↔ ∀ o ∈ incidents, hasKnownSeverity o = true) ∧
    (updateStats [[("id", JsVal.num 1), ("severity", JsVal.str "total")]]).total = 2 := by
  have hfold : updateStats incidents
      = { critical := incidents.countP (fun o => decide (severityKey o = "critical"))
          serious := incidents.countP (fun o => decide (severityKey o = "serious"))
          medium := incidents.countP (fun o => decide (severityKey o = "medium"))
          minor := incidents.countP (fun o => decide (severityKey o = "minor"))
          total := incidents.length
            + incidents.countP (fun o => decide (severityKey o = "total")) } := by
    unfold updateStats
    rw [foldl_bumpCount]
    simp
  have hsum := countP_known_severity incidents
  have hle : incidents.countP hasKnownSeverity ≤ incidents.length := List.countP_le_length _
  rw [hfold]
  refine ⟨rfl, rfl, rfl, rfl, rfl, ?_, ?_, by decide⟩
  · simp only [hsum]
    omega
  · simp only [hsum]
    constructor
    · intro heq
      have hlen : incidents.countP hasKnownSeverity = incidents.length := by omega
      exact List.countP_eq_length.mp hlen
    · intro hall
      have hlen : incidents.countP hasKnownSeverity = incidents.length :=
        List.countP_eq_length.mpr hall
      have hzero : incidents.countP (fun o => decide (severityKey o = "total")) = 0 := by
        rw [List.countP_eq_zero]
        intro o ho htotal
        have hk := hall o ho
        have ht : severityKey o = "total" := of_decide_eq_true htotal
        simp [hasKnownSeverity, ht] at hk
      omega

/-! ## Verification bar bounds (C25) -/

/-- C25 as stated fails: for counts (2 ^ 53, 1, 0) the sum `2 ^ 53 + 1` is
not a binary64 number and `total` is rounded to `2 ^ 53`, so the quotient is 1
and the bar width is 100 although `no` is 1. -/
theorem yesPercent_hundred_with_a_no_vote :
    (renderVerification { yes := 2 ^ 53, no := 1, unsure := 0 }).barWidth
      = Binary64.finite 100 ∧
    ({ yes := 2 ^ 53, no := 1, unsure := 0 } : VerificationCounts).no ≠ 0 := by
  refine ⟨?_, by decide⟩
  have hyes : toNumber (2 ^ 53) = Binary64.finite ((2 : ℚ) ^ 53) := by
    rw [toNumber_of_le _ le_rfl]
    norm_num
  have hno : toNumber 1 = Binary64.finite 1 := by
    rw [toNumber_of_le 1 (by norm_num)]
    norm_num
  have hun : toNumber 0 = Binary64.finite 0 := by
    rw [toNumber_of_le 0 (by norm_num)]
    norm_num
  have hpow : nearestBinary64 ((2 : ℚ) ^ 53) = 2 ^ 53 := by
    have h := nearestBinary64_natCast (2 ^ 53) le_rfl
    push_cast at h
    exact h
  have hsum : (Binary64.finite ((2 : ℚ) ^ 53)).add (Binary64.finite 1)
      = Binary64.finite ((2 : ℚ) ^ 53) := by
    show roundToBinary64 ((2 : ℚ) ^ 53 + 1) = _
    rw [roundToBinary64_of_le _ (2 ^ 53) (by rw [nearestBinary64_tie_above_two_pow_53])
      (by norm_num), nearestBinary64_tie_above_two_pow_53]
  have hsum2 : (Binary64.finite ((2 : ℚ) ^ 53)).add (Binary64.finite 0)
      = Binary64.finite ((2 : ℚ) ^ 53) := by
    show roundToBinary64 ((2 : ℚ) ^ 53 + 0) = _
    rw [add_zero, roundToBinary64_of_le _ (2 ^ 53) (by rw [hpow]) (by norm_num), hpow]
  have htotal : verificationTotal { yes := 2 ^ 53, no := 1, unsure := 0 }
      = Binary64.finite ((2 : ℚ) ^ 53) := by
    show ((toNumber (2 ^ 53)).add (toNumber 1)).add (toNumber 0) = _
    rw [hyes, hno, hun, hsum, hsum2]
  have hdiv : (Binary64.finite ((2 : ℚ) ^ 53)).div (Binary64.finite ((2 : ℚ) ^ 53))
      = Binary64.finite 1 := by
    simp only [Binary64.div]
    rw [if_neg (by norm_num), div_self (by norm_num),
      roundToBinary64_of_le _ 1 (by rw [nearestBinary64_one]) (by norm_num),
      nearestBinary64_one]
  have hmul : (Binary64.finite 1).mul (Binary64.finite 100) = Binary64.finite 100 := by
    show roundToBinary64 (1 * 100) = _
    rw [one_mul, roundToBinary64_of_le _ 100 (by rw [nearestBinary64_hundred]) (by norm_num),
      nearestBinary64_hundred]
  show yesPercent { yes := 2 ^ 53, no := 1, unsure := 0 } = _
  unfold yesPercent
  rw [htotal]
  have hgt : (Binary64.finite ((2 : ℚ) ^ 53)).gtZero = true := by
    simp [Binary64.gtZero]
  rw [if_pos hgt]
  show ((toNumber (2 ^ 53)).div _).mul _ = _
  rw [hyes, hdiv, hmul]

/-- C25, amended: for counts whose sum is at most `2 ^ 53`, the bar width of
`renderVerification` is a finite number between 0 and 100; it is 100 exactly
when `yes > 0` and `no = unsure = 0`, and 0 exactly when `yes = 0`. -/
theorem yesPercent_bounds (counts : VerificationCounts)
    (h : counts.yes + counts.no + counts.unsure ≤ 2 ^ 53) :
    ∃ p : ℚ, (renderVerification counts).barWidth = Binary64.finite p ∧
      0 ≤ p ∧ p ≤ 100 ∧
      (p = 100 ↔ 0 < counts.yes ∧ counts.no = 0 ∧ counts.unsure = 0) ∧
      (p = 0 ↔ counts.yes = 0) := by
  rcases Nat.eq_zero_or_pos (counts.yes + counts.no + counts.unsure) with hz | hpos
  · refine ⟨0, yesPercent_of_total_zero counts hz, le_rfl, by norm_num, ?_, ?_⟩
    · constructor
      · intro h0
        norm_num at h0
      · rintro ⟨hy, _, _⟩
        omega
    · constructor
      · intro _
        omega
      · intro _
        rfl
  · obtain ⟨hp0, hp1⟩ := roundedPercent_bounds counts.yes
      (counts.yes + counts.no + counts.unsure) hpos (by omega)
    refine ⟨_, yesPercent_of_le counts h hpos, hp0, hp1, ?_, ?_⟩
    · constructor
      · intro h100
        rcases Nat.lt_or_ge counts.yes (counts.yes + counts.no + counts.unsure) with hlt | hge
        · have := roundedPercent_lt counts.yes _ hlt h
          linarith
        · refine ⟨?_, ?_, ?_⟩ <;> omega
      · rintro ⟨hy, hn, hu⟩
        rw [hn, hu]
        exact roundedPercent_self counts.yes hy
    · constructor
      · intro h0
        by_contra hne
        have := roundedPercent_pos counts.yes (counts.yes + counts.no + counts.unsure)
          (Nat.pos_of_ne_zero hne) (by omega) h
        linarith
      · intro hy
        rw [hy]
        exact roundedPercent_zero _

/-- Witness for C25: counts (3, 1, 0). -/
theorem yesPercent_bounds_witness :
    ∃ p : ℚ, (renderVerification { yes := 3, no := 1, unsure := 0 }).barWidth
        = Binary64.finite p ∧
      0 ≤ p ∧ p ≤ 100 ∧
      (p = 100 ↔ 0 < 3 ∧ 1 = 0 ∧ 0 = 0) ∧ (p = 0 ↔ 3 = 0) :=
  yesPercent_bounds { yes := 3, no := 1, unsure := 0 } (by decide)

/-! ## The loading flag of the incident page (C26) -/

theorem loadIncidentDataComplete_isLoading (p : IncidentPage) (outcome : LoadOutcome) :
    (loadIncidentDataComplete p outcome).isLoading = false := by
  cases outcome <;> rfl

theorem pageStep_flag_invariant (p : IncidentPage) (e : PageEvent)
    (h : p.outstanding ≤ 1 ∧ (p.isLoading = true ↔ p.outstanding = 1)) :
    (pageStep p e).outstanding ≤ 1 ∧
    ((pageStep p e).isLoading = true ↔ (pageStep p e).outstanding = 1) := by
  obtain ⟨hle, hiff⟩ := h
  cases e with
  | tick =>
    cases hl : p.isLoading with
    | true =>
      have hp : pageStep p PageEvent.tick = p := by simp [pageStep, hl]
      rw [hp]
      exact ⟨hle, hiff⟩
    | false =>
      have h0 : p.outstanding = 0 := by
        have hne : ¬ p.outstanding = 1 := fun h1 => by
          have := hiff.mpr h1
          rw [hl] at this
          exact Bool.noConfusion this
        omega
      simp [pageStep, hl, loadIncidentDataBegin, IncidentPage.showLoading, h0]
  | settle outcome =>
    by_cases h0 : p.outstanding = 0
    · have hp : pageStep p (PageEvent.settle outcome) = p := by simp [pageStep, h0]
      rw [hp]
      exact ⟨hle, hiff⟩
    · have h1 : p.outstanding = 1 := by omega
      have hp : pageStep p (PageEvent.settle outcome) = loadIncidentDataComplete p outcome := by
        simp [pageStep, h0]
      have hout : (loadIncidentDataComplete p outcome).outstanding = 0 := by
        cases outcome <;> simp [loadIncidentDataComplete, IncidentPage.showError, h1]
      rw [hp, loadIncidentDataComplete_isLoading, hout]
      simp

/-- C26 as stated fails in its last part: a cycle started by a direct call of
`loadIncidentData()` while the first cycle is in flight is still outstanding
when the first one completes and clears `isLoading`. -/
theorem overlapping_cycle_sees_isLoading_cleared :
    (pageAct IncidentPage.initial PageAction.direct).outstanding = 2 ∧
    (pageAct (pageAct IncidentPage.initial PageAction.direct)
      (PageAction.settle LoadOutcome.loaded)).outstanding = 1 ∧
    (pageAct (pageAct IncidentPage.initial PageAction.direct)
      (PageAction.settle LoadOutcome.loaded)).isLoading = false := by
  decide

/-- C26, amended: every completed `loadIncidentData` cycle, whatever its
outcome, leaves `isLoading` false, and the tick that follows a completion
starts a new cycle, so the guard of `startPolling` never blocks all later
ticks; every cycle sets `isLoading` to true when it starts; and when cycles
are started by the timer only (after the one of `init()`), `isLoading` is true
exactly while a cycle is in flight, that is from the start of a cycle until it
completes. -/
theorem loadIncidentData_clears_isLoading (events : List PageEvent) :
    (∀ (p : IncidentPage) (outcome : LoadOutcome),
      (loadIncidentDataComplete p outcome).isLoading = false) ∧
    (∀ (p : IncidentPage) (outcome : LoadOutcome),
      (pageAct p (PageAction.settle outcome)).outstanding < p.outstanding →
      (pageAct p (PageAction.settle outcome)).isLoading = false) ∧
    (∀ (p : IncidentPage) (outcome : LoadOutcome),
      pageStep (loadIncidentDataComplete p outcome) PageEvent.tick
        = loadIncidentDataBegin (loadIncidentDataComplete p outcome)) ∧
    (∀ p : IncidentPage, (loadIncidentDataBegin p).isLoading = true) ∧
    ((events.foldl pageStep IncidentPage.initial).isLoading = true ↔
      (events.foldl pageStep IncidentPage.initial).outstanding = 1) := by
  refine ⟨loadIncidentDataComplete_isLoading, ?_, ?_, fun _ => rfl, ?_⟩
  · intro p outcome hlt
    by_cases h0 : p.outstanding = 0
    · simp [pageAct, h0] at hlt
    · simp only [pageAct, h0, if_false]
      exact loadIncidentDataComplete_isLoading p outcome
  · intro p outcome
    simp [pageStep, loadIncidentDataComplete_isLoading]
  · have hfold : ∀ (es : List PageEvent) (p : IncidentPage),
        (p.outstanding ≤ 1 ∧ (p.isLoading = true ↔ p.outstanding = 1)) →
        ((es.foldl pageStep p).isLoading = true ↔ (es.foldl pageStep p).outstanding = 1) := by
      intro es
      induction es with
      | nil => intro p hinv; exact hinv.2
      | cons e t ih => intro p hinv; exact ih _ (pageStep_flag_invariant p e hinv)
    exact hfold events IncidentPage.initial ⟨by decide, by decide⟩

end IncidentEngine
